import Mathlib

/-!
A shallow embedding of the BinaryText library (src/BinaryText.hpp) in Lean 4,
together with theorems settling the claims about its specification.

Modelling conventions:
* A C++ byte (`char`, `unsigned char`, `std::byte`) is a `Nat`; wherever the
  source narrows a value to 8 bits (`std::bitset<8>`, `static_cast<unsigned
  char>`), the embedding takes `% 256`, and likewise `% 2^24`, `% 2^40`,
  `% 2^32` for `std::bitset<24/40/32>`.
* A `std::string` is a `List Char` on the input side; decoded output strings
  are lists of byte values (`List Nat`), since the source only ever appends
  `static_cast<char>(static_cast<unsigned char>(...))` of byte values.
* A thrown codec error is an `Except.error`; the `UnreachableTerminate`
  abort routine (which prints and calls `std::terminate`) is modelled as a
  distinguished error constructor so that its unreachability can be stated.
* The iterator pairs (`iter`/`jter` with `std::next`/`std::advance`) of the
  source walk each input group exactly once; the embedding consumes the same
  groups with structural recursion (`List.take`/`List.drop` for the codecs
  that do not skip whitespace, an explicit collector for those that do).
-/

namespace BinaryText

/-- The whitespace test used verbatim (`*iter == ' ' or *iter == '\n'`) by
Base16 and Ascii85 decoding. -/
def isWhitespaceChar (c : Char) : Bool := c == ' ' || c == '\n'

namespace Base16

/-- `BinaryText::Base16::Case`. -/
inductive Case where
| LOWERCASE
| MIXED
| UPPERCASE
deriving DecidableEq

/-- `BinaryText::Base16::Error::Type`, extended with a constructor standing
for the `UnreachableTerminate()` abort path (which is not an exception in the
source but terminates the process). -/
inductive ErrorType where
| INTERNAL_STRING_RESERVE_ERROR
| INVALID_CASE_ERROR
| STRING_PARSE_ERROR
| UNREACHABLE_TERMINATE
deriving DecidableEq

/-- The mixed-case digit switch of `Base16::DecodeStringToString`
(cases `'0'`..`'9'`, `'A'`..`'F'`, `'a'`..`'f'`; default throws). -/
def hexDigitValueMixed : Char → Option Nat
| '0' => Option.some 0
| '1' => Option.some 1
| '2' => Option.some 2
| '3' => Option.some 3
| '4' => Option.some 4
| '5' => Option.some 5
| '6' => Option.some 6
| '7' => Option.some 7
| '8' => Option.some 8
| '9' => Option.some 9
| 'A' => Option.some 10
| 'B' => Option.some 11
| 'C' => Option.some 12
| 'D' => Option.some 13
| 'E' => Option.some 14
| 'F' => Option.some 15
| 'a' => Option.some 10
| 'b' => Option.some 11
| 'c' => Option.some 12
| 'd' => Option.some 13
| 'e' => Option.some 14
| 'f' => Option.some 15
| _ => none

/-- The uppercase digit switch of `Base16::DecodeStringToString`. -/
def hexDigitValueUpper : Char → Option Nat
| '0' => Option.some 0
| '1' => Option.some 1
| '2' => Option.some 2
| '3' => Option.some 3
| '4' => Option.some 4
| '5' => Option.some 5
| '6' => Option.some 6
| '7' => Option.some 7
| '8' => Option.some 8
| '9' => Option.some 9
| 'A' => Option.some 10
| 'B' => Option.some 11
| 'C' => Option.some 12
| 'D' => Option.some 13
| 'E' => Option.some 14
| 'F' => Option.some 15
| _ => none

/-- The lowercase digit switch of `Base16::DecodeStringToString`. -/
def hexDigitValueLower : Char → Option Nat
| '0' => Option.some 0
| '1' => Option.some 1
| '2' => Option.some 2
| '3' => Option.some 3
| '4' => Option.some 4
| '5' => Option.some 5
| '6' => Option.some 6
| '7' => Option.some 7
| '8' => Option.some 8
| '9' => Option.some 9
| 'a' => Option.some 10
| 'b' => Option.some 11
| 'c' => Option.some 12
| 'd' => Option.some 13
| 'e' => Option.some 14
| 'f' => Option.some 15
| _ => none

/-- The `switch(case_)` dispatch of the decode digit tables. -/
def hexDigitValue : Case → Char → Option Nat
| Case.MIXED, ch => hexDigitValueMixed ch
| Case.UPPERCASE, ch => hexDigitValueUpper ch
| Case.LOWERCASE, ch => hexDigitValueLower ch

theorem hexDigitValue_lt {c : Case} {ch : Char} {v : Nat}
    (h : hexDigitValue c ch = some v) : v < 16 := by
  cases c <;>
    simp only [hexDigitValue, hexDigitValueMixed, hexDigitValueUpper,
      hexDigitValueLower] at h <;>
    (split at h <;> simp_all <;> omega)

/-- The inner `jter` loop of `Base16::DecodeStringToString` after the first
hex digit of a group has been read into `bitset` (value `bits`, with
`counter == 1`).  It skips `' '`/`'\n'` (a whitespace that is the last input
character breaks the loop instead, leaving it to the outer loop), reads the
second digit (`bitset <<= 4; bitset |= digit`, the `|=` on the freshly
cleared low nibble being an addition), and stops after it.  Returns the
final `counter`, the `bitset` value and the input left for the outer loop. -/
def collectSecondDigit (c : Case) (bits : Nat) :
    List Char → Except ErrorType (Nat × Nat × List Char)
| [] => Except.ok (1, bits, [])
| ch :: rest =>
  if isWhitespaceChar ch then
    if rest.isEmpty then Except.ok (1, bits, [ch])
    else collectSecondDigit c bits rest
  else
    match hexDigitValue c ch with
    | some v => Except.ok (2, bits * 16 % 256 + v, rest)
    | none => Except.error ErrorType.STRING_PARSE_ERROR

theorem collectSecondDigit_rest_le (c : Case) (bits : Nat) :
    ∀ (s rest : List Char) (n b : Nat),
      collectSecondDigit c bits s = Except.ok (n, b, rest) →
      rest.length ≤ s.length := by
  intro s
  induction s with
  | nil =>
    intro rest n b h
    simp only [collectSecondDigit] at h
    cases h
    simp
  | cons ch tail ih =>
    intro rest n b h
    simp only [collectSecondDigit] at h
    by_cases hws : isWhitespaceChar ch
    · simp only [hws, if_true] at h
      by_cases hemp : tail.isEmpty
      · simp only [hemp, if_true] at h
        cases h
        simp_all [List.isEmpty_iff]
      · simp only [hemp, if_false] at h
        have := ih rest n b h
        simp only [List.length_cons]
        omega
    · simp only [hws, if_false] at h
      cases hv : hexDigitValue c ch with
      | some v =>
        rw [hv] at h
        cases h
        simp
      | none =>
        rw [hv] at h
        cases h

/-- The outer loop of `Base16::DecodeStringToString` (BinaryText.hpp
1295-1410): skip whitespace; otherwise read the first digit of the group
(`counter = 1`, parse error on a non-digit), run the inner loop
(`collectSecondDigit`), then flush through `switch(counter)`:
`case 2` appends the byte, `case 1` appends `bitset <<= 4` (the trailing
half-byte as high nibble), and the `default` calls `UnreachableTerminate()`.
The decoded string is produced as the list of its byte values. -/
def decodeGo (c : Case) (s : List Char) : Except ErrorType (List Nat) :=
  match s with
  | [] => Except.ok []
  | ch :: rest =>
    if isWhitespaceChar ch then decodeGo c rest
    else
      match hexDigitValue c ch with
      | none => Except.error ErrorType.STRING_PARSE_ERROR
      | some v1 =>
        match h : collectSecondDigit c v1 rest with
        | Except.error e => Except.error e
        | Except.ok (counter, bits, rest2) =>
          match counter with
          | 2 => (decodeGo c rest2).map (fun l => bits :: l)
          | 1 => (decodeGo c rest2).map (fun l => bits * 16 % 256 :: l)
          | _ => Except.error ErrorType.UNREACHABLE_TERMINATE
termination_by s.length
decreasing_by
· simp only [List.length_cons]; omega
· have := collectSecondDigit_rest_le c v1 rest rest2 2 bits h
  simp only [List.length_cons]; omega
· have := collectSecondDigit_rest_le c v1 rest rest2 1 bits h
  simp only [List.length_cons]; omega

/-- `BinaryText::Base16::DecodeStringToString` (the default `case_` argument
of the source is `Case::MIXED`). -/
def DecodeStringToString (encodedString : List Char) (c : Case := Case.MIXED) :
    Except ErrorType (List Nat) :=
  decodeGo c encodedString

/-- Specification-side pairing function (from the spec's words): hex digits
are consumed two at a time, a final unpaired digit is emitted left-shifted
four bits, and any character that is not a digit of the selected alphabet is
a parse error. -/
def pairsSpec (c : Case) : List Char → Except ErrorType (List Nat)
| [] => Except.ok []
| [d] =>
  match hexDigitValue c d with
  | some v => Except.ok [v * 16]
  | none => Except.error ErrorType.STRING_PARSE_ERROR
| d1 :: d2 :: rest =>
  match hexDigitValue c d1, hexDigitValue c d2 with
  | some v1, some v2 => (pairsSpec c rest).map (fun l => (v1 * 16 + v2) :: l)
  | _, _ => Except.error ErrorType.STRING_PARSE_ERROR

/-- Specification-side decode (from the spec's words): whitespace characters
(`' '` U+0020 and `'\n'` U+000A) are ignored wherever they occur, the rest
is decoded pairwise. -/
def decodeSpec (c : Case) (s : List Char) : Except ErrorType (List Nat) :=
  pairsSpec c (s.filter (fun ch => !isWhitespaceChar ch))

/-- The continuation of a decode group after its first digit `v1`: run the
inner loop and flush (this is the sub-term of `decodeGo` below the first
digit). -/
def flushCont (c : Case) (v1 : Nat) (rest : List Char) :
    Except ErrorType (List Nat) :=
  match collectSecondDigit c v1 rest with
  | Except.error e => Except.error e
  | Except.ok (counter, bits, rest2) =>
    match counter with
    | 2 => (decodeGo c rest2).map (fun l => bits :: l)
    | 1 => (decodeGo c rest2).map (fun l => bits * 16 % 256 :: l)
    | _ => Except.error ErrorType.UNREACHABLE_TERMINATE

/-- The continuation of `pairsSpec` after a first digit of value `v1`. -/
def specCont (c : Case) (v1 : Nat) (t : List Char) :
    Except ErrorType (List Nat) :=
  match t with
  | [] => Except.ok [v1 * 16]
  | d2 :: rest =>
    match hexDigitValue c d2 with
    | some v2 => (pairsSpec c rest).map (fun l => (v1 * 16 + v2) :: l)
    | none => Except.error ErrorType.STRING_PARSE_ERROR

theorem decodeGo_nil (c : Case) : decodeGo c [] = Except.ok [] := by
  simp [decodeGo]

theorem decodeGo_cons_ws (c : Case) {ch : Char} (rest : List Char)
    (h : isWhitespaceChar ch = true) :
    decodeGo c (ch :: rest) = decodeGo c rest := by
  rw [decodeGo]
  simp [h]

theorem decodeGo_cons_bad (c : Case) {ch : Char} (rest : List Char)
    (hws : isWhitespaceChar ch = false) (hv : hexDigitValue c ch = none) :
    decodeGo c (ch :: rest) = Except.error ErrorType.STRING_PARSE_ERROR := by
  rw [decodeGo]
  simp [hws, hv]

theorem decodeGo_cons_digit (c : Case) {ch : Char} {v1 : Nat}
    (rest : List Char) (hws : isWhitespaceChar ch = false)
    (hv : hexDigitValue c ch = some v1) :
    decodeGo c (ch :: rest) = flushCont c v1 rest := by
  rw [decodeGo, flushCont]
  simp only [hws, Bool.false_eq_true, if_false, hv]
  split
  · rename_i e heq
    rw [heq]
  · rename_i counter bits rest2 heq
    conv_rhs => rw [heq]
    rcases counter with _ | _ | _ | n <;> rfl

theorem pairsSpec_cons (c : Case) {d1 : Char} {v1 : Nat} (t : List Char)
    (hv : hexDigitValue c d1 = some v1) :
    pairsSpec c (d1 :: t) = specCont c v1 t := by
  cases t with
  | nil => simp [pairsSpec, specCont, hv]
  | cons d2 rest =>
    cases h2 : hexDigitValue c d2 with
    | none => simp [pairsSpec, specCont, hv, h2]
    | some v2 => simp [pairsSpec, specCont, hv, h2]

theorem decodeGo_eq_spec_aux (c : Case) : ∀ n : Nat,
    (∀ s : List Char, s.length ≤ n →
      decodeGo c s = pairsSpec c (s.filter (fun ch => !isWhitespaceChar ch))) ∧
    (∀ (v1 : Nat) (rest : List Char), v1 < 16 → rest.length ≤ n →
      flushCont c v1 rest =
        specCont c v1 (rest.filter (fun ch => !isWhitespaceChar ch))) := by
  intro n
  induction n with
  | zero =>
    constructor
    · intro s hs
      have hnil : s = [] := List.length_eq_zero.mp (Nat.le_zero.mp hs)
      rw [hnil]
      simp [decodeGo_nil, pairsSpec]
    · intro v1 rest h16 hr
      have hnil : rest = [] := List.length_eq_zero.mp (Nat.le_zero.mp hr)
      rw [hnil]
      have hmod : v1 * 16 % 256 = v1 * 16 := Nat.mod_eq_of_lt (by omega)
      simp [flushCont, collectSecondDigit, specCont, decodeGo_nil, hmod,
        Except.map]
  | succ n ih =>
    constructor
    · intro s hs
      match s with
      | [] => simp [decodeGo_nil, pairsSpec]
      | ch :: rest =>
        have hlen : rest.length ≤ n := by
          simp only [List.length_cons] at hs; omega
        by_cases hws : isWhitespaceChar ch
        · rw [decodeGo_cons_ws c rest hws]
          have := ih.1 rest hlen
          simp [List.filter_cons, hws, this]
        · have hwsf : isWhitespaceChar ch = false := by simpa using hws
          cases hv : hexDigitValue c ch with
          | none =>
            rw [decodeGo_cons_bad c rest hwsf hv]
            rw [List.filter_cons]
            simp only [hwsf, Bool.not_false, if_true]
            cases hft : List.filter (fun ch => !isWhitespaceChar ch) rest with
            | nil => simp [pairsSpec, hv]
            | cons d2 t2 => simp [pairsSpec, hv]
          | some v1 =>
            rw [decodeGo_cons_digit c rest hwsf hv]
            have h16 := hexDigitValue_lt hv
            have := ih.2 v1 rest h16 hlen
            rw [this]
            rw [List.filter_cons]
            simp only [hwsf, Bool.not_false, if_true]
            rw [pairsSpec_cons c _ hv]
    · intro v1 rest h16 hr
      have hmod : v1 * 16 % 256 = v1 * 16 := Nat.mod_eq_of_lt (by omega)
      match rest with
      | [] =>
        simp [flushCont, collectSecondDigit, specCont, decodeGo_nil, hmod,
          Except.map]
      | ch :: rs =>
        have hlen : rs.length ≤ n := by
          simp only [List.length_cons] at hr; omega
        by_cases hws : isWhitespaceChar ch
        · by_cases hemp : rs = []
          · subst hemp
            rw [flushCont]
            simp only [collectSecondDigit, hws, if_true, List.isEmpty_nil]
            rw [decodeGo_cons_ws c [] hws, decodeGo_nil]
            simp [List.filter_cons, hws, specCont, hmod, Except.map]
          · have hrsf : rs.isEmpty = false := by
              simpa [List.isEmpty_iff] using hemp
            have h1 : flushCont c v1 (ch :: rs) = flushCont c v1 rs := by
              rw [flushCont, flushCont]
              simp only [collectSecondDigit, hws, if_true, hrsf,
                Bool.false_eq_true, if_false]
            rw [h1]
            have := ih.2 v1 rs h16 hlen
            rw [this]
            simp [List.filter_cons, hws]
        · have hwsf : isWhitespaceChar ch = false := by simpa using hws
          cases hv : hexDigitValue c ch with
          | none =>
            rw [flushCont]
            simp only [collectSecondDigit, hwsf, Bool.false_eq_true,
              if_false, hv]
            rw [List.filter_cons]
            simp only [hwsf, Bool.not_false, if_true]
            simp [specCont, hv]
          | some v2 =>
            rw [flushCont]
            simp only [collectSecondDigit, hwsf, Bool.false_eq_true,
              if_false, hv]
            have hP := ih.1 rs hlen
            simp only [List.filter_cons, hwsf, Bool.not_false, if_true]
            rw [specCont]
            simp only [hv]
            rw [hP]
            have hb : v1 * 16 % 256 + v2 = v1 * 16 + v2 := by rw [hmod]
            rw [hb]

/-- The decode loop agrees with the specification-side pairing decode. -/
theorem decodeGo_eq_spec (c : Case) (s : List Char) :
    decodeGo c s = decodeSpec c s :=
  (decodeGo_eq_spec_aux c s.length).1 s (Nat.le_refl _)

end Base16

namespace Base32

/-- `BinaryText::Base32::Error::Type`, extended with an
`UnreachableTerminate()` constructor as for Base16. -/
inductive ErrorType where
| INTERNAL_STRING_RESERVE_ERROR
| STRING_PARSE_ERROR
| UNREACHABLE_TERMINATE
deriving DecidableEq

/-- The decode symbol switch of `Base32::DecodeStringToString`
(`'A'`..`'Z'` then `'2'`..`'7'`; `'='` and the default are handled by the
caller). -/
def symbolValue : Char → Option Nat
| 'A' => some 0
| 'B' => some 1
| 'C' => some 2
| 'D' => some 3
| 'E' => some 4
| 'F' => some 5
| 'G' => some 6
| 'H' => some 7
| 'I' => some 8
| 'J' => some 9
| 'K' => some 10
| 'L' => some 11
| 'M' => some 12
| 'N' => some 13
| 'O' => some 14
| 'P' => some 15
| 'Q' => some 16
| 'R' => some 17
| 'S' => some 18
| 'T' => some 19
| 'U' => some 20
| 'V' => some 21
| 'W' => some 22
| 'X' => some 23
| 'Y' => some 24
| 'Z' => some 25
| '2' => some 26
| '3' => some 27
| '4' => some 28
| '5' => some 29
| '6' => some 30
| '7' => some 31
| _ => none

/-- One pass of the inner `jter` loop of `Base32::DecodeStringToString`
over the (at most eight) characters of the current group: for each
character, `loopCounter += 1` and `bitset <<= 5` (40-bit bitset); then, if a
`'='` has already been seen and the character is not `'='`, a parse error;
otherwise the symbol switch: an alphabet symbol is or-ed into the freshly
cleared low five bits (an addition), `'='` increments `paddingCounter`, and
anything else is a parse error.  Returns the final `bitset` and
`paddingCounter` values. -/
def scanGroup (bits pad : Nat) : List Char → Except ErrorType (Nat × Nat)
| [] => Except.ok (bits, pad)
| ch :: rest =>
  let bits2 := bits * 32 % 2 ^ 40
  if 0 < pad ∧ ch ≠ '=' then Except.error ErrorType.STRING_PARSE_ERROR
  else if ch = '=' then scanGroup bits2 (pad + 1) rest
  else
    match symbolValue ch with
    | some v => scanGroup (bits2 + v) pad rest
    | none => Except.error ErrorType.STRING_PARSE_ERROR

/-- The `switch(paddingCounter)` that writes the decoded bytes of one group
(`bitset >> 32`, `>> 24`, ... cast to `unsigned char`), paired with the
`paddingCounter` value it switched on (used afterwards by
`if(paddingCounter > 0U) break;`). -/
def emitGroup (bits pad : Nat) : Except ErrorType (List Nat × Nat) :=
  match pad with
  | 0 => Except.ok ([bits / 2 ^ 32 % 256, bits / 2 ^ 24 % 256,
      bits / 2 ^ 16 % 256, bits / 2 ^ 8 % 256, bits % 256], 0)
  | 1 => Except.ok ([bits / 2 ^ 32 % 256, bits / 2 ^ 24 % 256,
      bits / 2 ^ 16 % 256, bits / 2 ^ 8 % 256], 1)
  | 3 => Except.ok ([bits / 2 ^ 32 % 256, bits / 2 ^ 24 % 256,
      bits / 2 ^ 16 % 256], 3)
  | 4 => Except.ok ([bits / 2 ^ 32 % 256, bits / 2 ^ 24 % 256], 4)
  | 6 => Except.ok ([bits / 2 ^ 32 % 256], 6)
  | _ => Except.error ErrorType.STRING_PARSE_ERROR

/-- The `switch(loopCounter)` run after the inner loop of
`Base32::DecodeStringToString`: a short final group shifts the bitset left
once per missing symbol and remaps `paddingCounter` (a `loopCounter` of one
is a parse error, zero or more than eight would reach
`UnreachableTerminate()`), after which the bytes are emitted. -/
def flushGroup (bits pad cnt : Nat) : Except ErrorType (List Nat × Nat) :=
  match cnt with
  | 8 => emitGroup bits pad
  | 7 =>
    match pad with
    | 5 => emitGroup (bits * 32 % 2 ^ 40) 6
    | 3 => emitGroup (bits * 32 % 2 ^ 40) 4
    | 2 => emitGroup (bits * 32 % 2 ^ 40) 3
    | 0 => emitGroup (bits * 32 % 2 ^ 40) 1
    | _ => Except.error ErrorType.STRING_PARSE_ERROR
  | 6 =>
    match pad with
    | 4 => emitGroup (bits * 32 ^ 2 % 2 ^ 40) 6
    | 2 => emitGroup (bits * 32 ^ 2 % 2 ^ 40) 4
    | 1 => emitGroup (bits * 32 ^ 2 % 2 ^ 40) 3
    | _ => Except.error ErrorType.STRING_PARSE_ERROR
  | 5 =>
    match pad with
    | 3 => emitGroup (bits * 32 ^ 3 % 2 ^ 40) 6
    | 1 => emitGroup (bits * 32 ^ 3 % 2 ^ 40) 4
    | 0 => emitGroup (bits * 32 ^ 3 % 2 ^ 40) 3
    | _ => Except.error ErrorType.STRING_PARSE_ERROR
  | 4 =>
    match pad with
    | 2 => emitGroup (bits * 32 ^ 4 % 2 ^ 40) 6
    | 0 => emitGroup (bits * 32 ^ 4 % 2 ^ 40) 4
    | _ => Except.error ErrorType.STRING_PARSE_ERROR
  | 3 =>
    match pad with
    | 1 => emitGroup (bits * 32 ^ 5 % 2 ^ 40) 6
    | _ => Except.error ErrorType.STRING_PARSE_ERROR
  | 2 =>
    match pad with
    | 0 => emitGroup (bits * 32 ^ 6 % 2 ^ 40) 6
    | _ => Except.error ErrorType.STRING_PARSE_ERROR
  | 1 => Except.error ErrorType.STRING_PARSE_ERROR
  | _ => Except.error ErrorType.UNREACHABLE_TERMINATE

/-- The outer loop of `Base32::DecodeStringToString` (BinaryText.hpp
1869-2053).  The inner loop consumes exactly the next
`min 8 s.length` characters (the `jter`/`iter` cursor comparison stops it
after the eighth character or at the end of the input), so each round
processes `s.take 8` and continues on `s.drop 8`; after emitting, the outer
loop stops (`break`) if the group contained any padding. -/
def decodeGo (s : List Char) : Except ErrorType (List Nat) :=
  if s.isEmpty then Except.ok []
  else
    match scanGroup 0 0 (s.take 8) with
    | Except.error e => Except.error e
    | Except.ok (bits, pad) =>
      match flushGroup bits pad (s.take 8).length with
      | Except.error e => Except.error e
      | Except.ok (bytes, padAfter) =>
        if 0 < padAfter then Except.ok bytes
        else (decodeGo (s.drop 8)).map (fun l => bytes ++ l)
termination_by s.length
decreasing_by
  rename_i h
  have hne : s ≠ [] := by simpa [List.isEmpty_iff] using h
  have hpos : 0 < s.length := List.length_pos.mpr hne
  simp only [List.length_drop]
  omega

/-- `BinaryText::Base32::DecodeStringToString` (whitespace is not skipped). -/
def DecodeStringToString (encodedString : List Char) :
    Except ErrorType (List Nat) :=
  decodeGo encodedString

end Base32

namespace Base64

/-- `BinaryText::Base64::Error::Type`, extended with an
`UnreachableTerminate()` constructor as for Base16. -/
inductive ErrorType where
| INTERNAL_STRING_RESERVE_ERROR
| STRING_PARSE_ERROR
| UNREACHABLE_TERMINATE
deriving DecidableEq

/-- The decode symbol switch of `Base64::DecodeStringToString`
(`'A'`..`'Z'`, `'a'`..`'z'`, `'0'`..`'9'`, `'+'`, `'/'`; `'='` and the
default are handled by the caller). -/
def symbolValue : Char → Option Nat
| 'A' => some 0
| 'B' => some 1
| 'C' => some 2
| 'D' => some 3
| 'E' => some 4
| 'F' => some 5
| 'G' => some 6
| 'H' => some 7
| 'I' => some 8
| 'J' => some 9
| 'K' => some 10
| 'L' => some 11
| 'M' => some 12
| 'N' => some 13
| 'O' => some 14
| 'P' => some 15
| 'Q' => some 16
| 'R' => some 17
| 'S' => some 18
| 'T' => some 19
| 'U' => some 20
| 'V' => some 21
| 'W' => some 22
| 'X' => some 23
| 'Y' => some 24
| 'Z' => some 25
| 'a' => some 26
| 'b' => some 27
| 'c' => some 28
| 'd' => some 29
| 'e' => some 30
| 'f' => some 31
| 'g' => some 32
| 'h' => some 33
| 'i' => some 34
| 'j' => some 35
| 'k' => some 36
| 'l' => some 37
| 'm' => some 38
| 'n' => some 39
| 'o' => some 40
| 'p' => some 41
| 'q' => some 42
| 'r' => some 43
| 's' => some 44
| 't' => some 45
| 'u' => some 46
| 'v' => some 47
| 'w' => some 48
| 'x' => some 49
| 'y' => some 50
| 'z' => some 51
| '0' => some 52
| '1' => some 53
| '2' => some 54
| '3' => some 55
| '4' => some 56
| '5' => some 57
| '6' => some 58
| '7' => some 59
| '8' => some 60
| '9' => some 61
| '+' => some 62
| '/' => some 63
| _ => none

/-- One pass of the inner `jter` loop of `Base64::DecodeStringToString` over
the (at most four) characters of the current group: `loopCounter += 1`,
`bitset <<= 6` (24-bit bitset); a non-`'='` after a `'='` is a parse error;
otherwise an alphabet symbol is or-ed in (an addition on the cleared low six
bits), `'='` increments `paddingCounter`, anything else is a parse error. -/
def scanGroup (bits pad : Nat) : List Char → Except ErrorType (Nat × Nat)
| [] => Except.ok (bits, pad)
| ch :: rest =>
  let bits2 := bits * 64 % 2 ^ 24
  if 0 < pad ∧ ch ≠ '=' then Except.error ErrorType.STRING_PARSE_ERROR
  else if ch = '=' then scanGroup bits2 (pad + 1) rest
  else
    match symbolValue ch with
    | some v => scanGroup (bits2 + v) pad rest
    | none => Except.error ErrorType.STRING_PARSE_ERROR

/-- The `switch(paddingCounter)` that writes the decoded bytes of one group
(`bitset >> 16`, `>> 8`, `bitset` cast to `unsigned char`), paired with the
`paddingCounter` value it switched on. -/
def emitGroup (bits pad : Nat) : Except ErrorType (List Nat × Nat) :=
  match pad with
  | 0 => Except.ok ([bits / 2 ^ 16 % 256, bits / 2 ^ 8 % 256, bits % 256], 0)
  | 1 => Except.ok ([bits / 2 ^ 16 % 256, bits / 2 ^ 8 % 256], 1)
  | 2 => Except.ok ([bits / 2 ^ 16 % 256], 2)
  | _ => Except.error ErrorType.STRING_PARSE_ERROR

/-- The `switch(loopCounter)` run after the inner loop of
`Base64::DecodeStringToString`: a three-symbol final group shifts once and
remaps `paddingCounter` `{1 ↦ 2, 0 ↦ 1}`, a two-symbol final group shifts
twice and remaps `{0 ↦ 2}`, a one-symbol final group is a parse error, and
zero or more than four would reach `UnreachableTerminate()`. -/
def flushGroup (bits pad cnt : Nat) : Except ErrorType (List Nat × Nat) :=
  match cnt with
  | 4 => emitGroup bits pad
  | 3 =>
    match pad with
    | 1 => emitGroup (bits * 64 % 2 ^ 24) 2
    | 0 => emitGroup (bits * 64 % 2 ^ 24) 1
    | _ => Except.error ErrorType.STRING_PARSE_ERROR
  | 2 =>
    match pad with
    | 0 => emitGroup (bits * 64 ^ 2 % 2 ^ 24) 2
    | _ => Except.error ErrorType.STRING_PARSE_ERROR
  | 1 => Except.error ErrorType.STRING_PARSE_ERROR
  | _ => Except.error ErrorType.UNREACHABLE_TERMINATE

/-- The outer loop of `Base64::DecodeStringToString` (BinaryText.hpp
3301-3453): each round processes the next `min 4 s.length` characters and
stops after any group that contained padding
(`if(paddingCounter > 0U) break;`). -/
def decodeGo (s : List Char) : Except ErrorType (List Nat) :=
  if s.isEmpty then Except.ok []
  else
    match scanGroup 0 0 (s.take 4) with
    | Except.error e => Except.error e
    | Except.ok (bits, pad) =>
      match flushGroup bits pad (s.take 4).length with
      | Except.error e => Except.error e
      | Except.ok (bytes, padAfter) =>
        if 0 < padAfter then Except.ok bytes
        else (decodeGo (s.drop 4)).map (fun l => bytes ++ l)
termination_by s.length
decreasing_by
  rename_i h
  have hne : s ≠ [] := by simpa [List.isEmpty_iff] using h
  have hpos : 0 < s.length := List.length_pos.mpr hne
  simp only [List.length_drop]
  omega

/-- `BinaryText::Base64::DecodeStringToString` (whitespace is not skipped). -/
def DecodeStringToString (encodedString : List Char) :
    Except ErrorType (List Nat) :=
  decodeGo encodedString

end Base64

namespace Ascii85

/-- `BinaryText::Ascii85::Error::Type`, extended with an
`UnreachableTerminate()` constructor as for Base16. -/
inductive ErrorType where
| INTERNAL_STRING_RESERVE_ERROR
| STRING_PARSE_ERROR
| UNREACHABLE_TERMINATE
deriving DecidableEq

/-- Encoding of one input group (the body of the outer encode loop of
`Ascii85::EncodeStringToString` / `EncodeByteBufferToString`,
BinaryText.hpp 4392-4437 and 4471-4516) applied to the group's bytes `g`
(`1 ≤ g.length ≤ 4`):
* the inner loop packs the bytes big-endian into a 32-bit bitset;
* `switch(counter)` zero-extends a ragged group (`bitset <<= 8·(4−r)`) and
  sets `counter` to `0` for a full group;
* a bitset equal to zero emits `'z'`; a bitset equal to `0x20202020` with
  space folding on emits `'y'`; otherwise the five radix-85 digits are
  emitted most significant first (each offset by 33) and, for a ragged
  group, the trailing `4 − counter` characters are erased again. -/
def encodeGroup (foldSpaces : Bool) (g : List Nat) : List Char :=
  let cnt := g.length
  let packed := g.foldl (fun b x => b * 256 % 2 ^ 32 + x % 256) 0
  let v := packed * 2 ^ (8 * (4 - cnt)) % 2 ^ 32
  if v = 0 then ['z']
  else if v = 538976288 ∧ foldSpaces then ['y']
  else
    let five := [Char.ofNat (v / 85 ^ 4 % 85 + 33),
      Char.ofNat (v / 85 ^ 3 % 85 + 33), Char.ofNat (v / 85 ^ 2 % 85 + 33),
      Char.ofNat (v / 85 % 85 + 33), Char.ofNat (v % 85 + 33)]
    let post := if cnt = 4 then 0 else cnt
    if 4 - post ≠ 4 then five.take (five.length - (4 - post)) else five

/-- The outer encode loop: the inner `jter` loop consumes exactly the next
`min 4` input bytes, so each round processes `s.take 4`. -/
def encodeGo (foldSpaces : Bool) (s : List Nat) : List Char :=
  if s.isEmpty then []
  else encodeGroup foldSpaces (s.take 4) ++ encodeGo foldSpaces (s.drop 4)
termination_by s.length
decreasing_by
  rename_i h
  have hne : s ≠ [] := by simpa [List.isEmpty_iff] using h
  have hpos : 0 < s.length := List.length_pos.mpr hne
  simp only [List.length_drop]
  omega

/-- `BinaryText::Ascii85::EncodeByteBufferToString` on the buffer's byte
values (in Adobe mode the payload is wrapped in `<~` and `~>`). -/
def EncodeByteBufferToString (byteBuffer : List Nat)
    (foldSpaces : Bool := false) (adobeMode : Bool := false) : List Char :=
  (if adobeMode then ['<', '~'] else []) ++ encodeGo foldSpaces byteBuffer ++
    (if adobeMode then ['~', '>'] else [])

/-- `BinaryText::Ascii85::EncodeStringToString`; each input `char` is read
through `std::bitset<8>`, i.e. as its low eight bits. -/
def EncodeStringToString (s : List Char) (foldSpaces : Bool := false)
    (adobeMode : Bool := false) : List Char :=
  EncodeByteBufferToString (s.map (fun ch => ch.toNat % 256)) foldSpaces
    adobeMode

/-- The inner `jter` loop of the Ascii85 decoders (`default:` case of the
outer switch, BinaryText.hpp 4598-4631 and 4785-4818): collect up to five
digit characters, skipping `' '`/`'\n'` interior whitespace — each skip
also executes `std::advance(iter, 1)` — with a parse error for characters
outside `[33, 117]`; the `k`-th digit contributes `(digit − 33)·85^(5−k)`
(the `switch(counter)` factored below into `digitScale`, whose `default:`
would be `UnreachableTerminate()`).  The argument `ws` threads the number
of interior whitespace characters skipped so far, i.e. how far `iter` has
moved from the group's first character.  Returns the final `counter`, the
accumulated `bitsetNumber`, and the offset from the group's first
character at which the outer loop resumes after its `++iter`:
* the fifth digit, or a digit that is the last remaining character,
  executes `iter = jter; break;`, so the resume offset is one past the
  last scanned character, `ws + counter` (every scanned position is a
  skipped whitespace or a consumed digit);
* a whitespace that is the last remaining character breaks *without*
  `iter = jter`, so the resume offset is only `ws + 1` — generally inside
  the group, whose tail the outer loop then re-decodes.

A call on the empty list models the inner loop dereferencing
`encodedStringEnd` (its condition tests `iter`, not `jter`), which the
break/throw analysis above makes unreachable from the outer loop. -/
def digitScale : Nat → Option Nat
| 1 => some (85 ^ 4)
| 2 => some (85 ^ 3)
| 3 => some (85 ^ 2)
| 4 => some 85
| 5 => some 1
| _ => none

def collectDigits (cnt bits ws : Nat) :
    List Char → Except ErrorType (Nat × Nat × Nat)
| [] => Except.error ErrorType.UNREACHABLE_TERMINATE
| ch :: rest =>
  if isWhitespaceChar ch then
    if rest.isEmpty then Except.ok (cnt, bits, ws + 1)
    else collectDigits cnt bits (ws + 1) rest
  else
    let p := ch.toNat % 256
    if p < 33 ∨ 117 < p then Except.error ErrorType.STRING_PARSE_ERROR
    else
      match digitScale (cnt + 1) with
      | none => Except.error ErrorType.UNREACHABLE_TERMINATE
      | some m =>
        let bits2 := bits + (p - 33) * m
        if cnt + 1 = 5 ∨ rest.isEmpty then
          Except.ok (cnt + 1, bits2, ws + cnt + 1)
        else collectDigits (cnt + 1) bits2 ws rest

theorem collectDigits_drop_ge :
    ∀ (s : List Char) (cnt bits ws : Nat) (n b d : Nat),
      collectDigits cnt bits ws s = Except.ok (n, b, d) →
      ws + 1 ≤ d := by
  intro s
  induction s with
  | nil =>
    intro cnt bits ws n b d h
    simp only [collectDigits] at h
    cases h
  | cons ch tail ih =>
    intro cnt bits ws n b d h
    simp only [collectDigits] at h
    by_cases hws : isWhitespaceChar ch
    · simp only [hws, if_true] at h
      by_cases hemp : tail.isEmpty
      · simp only [hemp, if_true] at h
        cases h
        omega
      · simp only [hemp, if_false] at h
        have := ih cnt bits (ws + 1) n b d h
        omega
    · simp only [hws, Bool.false_eq_true, if_false] at h
      by_cases hp : ch.toNat % 256 < 33 ∨ 117 < ch.toNat % 256
      · simp only [hp, if_true] at h
        cases h
      · simp only [hp, if_false] at h
        cases hm : digitScale (cnt + 1) with
        | none =>
          rw [hm] at h
          cases h
        | some m =>
          rw [hm] at h
          simp only [] at h
          by_cases hc : cnt + 1 = 5 ∨ tail.isEmpty = true
          · rw [if_pos hc] at h
            cases h
            omega
          · rw [if_neg hc] at h
            have := ih _ _ _ n b d h
            omega

/-- The tail block of the Ascii85 decode loop: `previousCounter` digits were
collected; the `while(counter < 5U)` loop pads every missing position with
the maximum digit value 84, `counter` becomes `5 − previousCounter`, the
(64-bit) `bitsetNumber` is narrowed to 32 bits (`std::bitset<32>`), and
`switch(counter)` emits the leading `4 − counter` bytes (its `default:`
would be `UnreachableTerminate()`). -/
def flushDigits (prev bits : Nat) : Except ErrorType (List Nat) :=
  match prev with
  | 5 =>
    let v := bits % 2 ^ 32
    Except.ok [v / 2 ^ 24 % 256, v / 2 ^ 16 % 256, v / 2 ^ 8 % 256, v % 256]
  | 4 =>
    let v := (bits + 84) % 2 ^ 32
    Except.ok [v / 2 ^ 24 % 256, v / 2 ^ 16 % 256, v / 2 ^ 8 % 256]
  | 3 =>
    let v := (bits + (84 * 85 + 84)) % 2 ^ 32
    Except.ok [v / 2 ^ 24 % 256, v / 2 ^ 16 % 256]
  | 2 =>
    let v := (bits + (84 * 85 ^ 2 + 84 * 85 + 84)) % 2 ^ 32
    Except.ok [v / 2 ^ 24 % 256]
  | 1 =>
    let _v := (bits + (84 * 85 ^ 3 + 84 * 85 ^ 2 + 84 * 85 + 84)) % 2 ^ 32
    Except.ok []
  | _ => Except.error ErrorType.UNREACHABLE_TERMINATE

/-- The payload loop of `Ascii85::DecodeStringToString` (BinaryText.hpp
4580-4681).  `' '` and `'\n'` are skipped; `'y'` appends four spaces when
space folding is on and is a parse error otherwise; `'z'` appends nothing
(`case 'z': continue;` — the `decodedString.append("\0\0\0\0")` next to it
is commented out in the source); any other character starts a digit group,
whose flushed bytes are followed by decoding from the resume offset the
inner loop left `iter` at (after the trailing-whitespace break without
`iter = jter` that offset falls inside the just-flushed group, and its
tail is decoded again). -/
def decodeStrGo (foldSpaces : Bool) (s : List Char) :
    Except ErrorType (List Nat) :=
  match s with
  | [] => Except.ok []
  | ch :: rest =>
    if ch = ' ' then decodeStrGo foldSpaces rest
    else if ch = '\n' then decodeStrGo foldSpaces rest
    else if ch = 'y' then
      if foldSpaces then
        (decodeStrGo foldSpaces rest).map (fun l => [32, 32, 32, 32] ++ l)
      else Except.error ErrorType.STRING_PARSE_ERROR
    else if ch = 'z' then decodeStrGo foldSpaces rest
    else
      match h : collectDigits 0 0 0 (ch :: rest) with
      | Except.error e => Except.error e
      | Except.ok (prev, bits, d) =>
        match flushDigits prev bits with
        | Except.error e => Except.error e
        | Except.ok bytes =>
          (decodeStrGo foldSpaces ((ch :: rest).drop d)).map
            (fun l => bytes ++ l)
termination_by s.length
decreasing_by
· simp only [List.length_cons]; omega
· simp only [List.length_cons]; omega
· simp only [List.length_cons]; omega
· simp only [List.length_cons]; omega
· have hd : 0 + 1 ≤ d := collectDigits_drop_ge (ch :: rest) 0 0 0 prev bits d h
  simp only [List.length_drop, List.length_cons]
  omega

/-- The payload loop of `Ascii85::DecodeStringToByteBuffer` (BinaryText.hpp
4759-4868).  Identical to `decodeStrGo` — including the resume offset left
by the inner loop's trailing-whitespace break — except at `'z'`, where this
surface appends four zero bytes (`addToByteBuffer('\0')` four times).  The
8 KiB staging buffer through which `addToByteBuffer` funnels the bytes
concatenates them in order into the result and is collapsed here. -/
def decodeBufGo (foldSpaces : Bool) (s : List Char) :
    Except ErrorType (List Nat) :=
  match s with
  | [] => Except.ok []
  | ch :: rest =>
    if ch = ' ' then decodeBufGo foldSpaces rest
    else if ch = '\n' then decodeBufGo foldSpaces rest
    else if ch = 'y' then
      if foldSpaces then
        (decodeBufGo foldSpaces rest).map (fun l => [32, 32, 32, 32] ++ l)
      else Except.error ErrorType.STRING_PARSE_ERROR
    else if ch = 'z' then
      (decodeBufGo foldSpaces rest).map (fun l => [0, 0, 0, 0] ++ l)
    else
      match h : collectDigits 0 0 0 (ch :: rest) with
      | Except.error e => Except.error e
      | Except.ok (prev, bits, d) =>
        match flushDigits prev bits with
        | Except.error e => Except.error e
        | Except.ok bytes =>
          (decodeBufGo foldSpaces ((ch :: rest).drop d)).map
            (fun l => bytes ++ l)
termination_by s.length
decreasing_by
· simp only [List.length_cons]; omega
· simp only [List.length_cons]; omega
· simp only [List.length_cons]; omega
· simp only [List.length_cons]; omega
· have hd : 0 + 1 ≤ d := collectDigits_drop_ge (ch :: rest) 0 0 0 prev bits d h
  simp only [List.length_drop, List.length_cons]
  omega

/-- The Adobe-mode delimiter scan of the Ascii85 decoders
(BinaryText.hpp 4546-4578 and 4725-4757): the forward loop skips leading
whitespace and requires a `<~` that is followed by at least one further
character (everything else, including a whitespace as the very last
character, is a parse error); the backward loop does the same from the end
for `~>`.  The payload is the range strictly between the delimiters.  On an
empty input neither loop runs and the payload is the whole (empty) string.
(When the two delimiter scans overlap the source walks `iter` past
`encodedStringEnd`, which is undefined behaviour; the embedding returns the
empty range there.) -/
def adobeTrim (s : List Char) : Except ErrorType (List Char) :=
  if s.isEmpty then Except.ok []
  else
    let lead := (s.takeWhile (fun ch => isWhitespaceChar ch)).length
    let trail := (s.reverse.takeWhile (fun ch => isWhitespaceChar ch)).length
    match s.dropWhile (fun ch => isWhitespaceChar ch) with
    | '<' :: '~' :: _ :: _ =>
      match s.reverse.dropWhile (fun ch => isWhitespaceChar ch) with
      | '>' :: '~' :: _ :: _ =>
        Except.ok ((s.take (s.length - trail - 2)).drop (lead + 2))
      | _ => Except.error ErrorType.STRING_PARSE_ERROR
    | _ => Except.error ErrorType.STRING_PARSE_ERROR

/-- `BinaryText::Ascii85::DecodeStringToString`, producing the decoded
string as its list of byte values. -/
def DecodeStringToString (encodedString : List Char)
    (foldSpaces : Bool := false) (adobeMode : Bool := false) :
    Except ErrorType (List Nat) :=
  match (if adobeMode then adobeTrim encodedString
         else Except.ok encodedString) with
  | Except.error e => Except.error e
  | Except.ok payload => decodeStrGo foldSpaces payload

/-- `BinaryText::Ascii85::DecodeStringToByteBuffer`, producing the decoded
buffer as its list of byte values. -/
def DecodeStringToByteBuffer (encodedString : List Char)
    (foldSpaces : Bool := false) (adobeMode : Bool := false) :
    Except ErrorType (List Nat) :=
  match (if adobeMode then adobeTrim encodedString
         else Except.ok encodedString) with
  | Except.error e => Except.error e
  | Except.ok payload => decodeBufGo foldSpaces payload

end Ascii85

/-- `BinaryText::ByteBuffer<ByteType>`: `_size` is the value of the
`std::size_t` member and `buffer` models the `std::unique_ptr<ValueType[]>`
member — `none` is the null pointer, `some f` a heap array read through the
index function `f` (bytes as `Nat`).  Allocation is modelled as always
succeeding; the `catch(std::bad_alloc)` paths, which reset the buffer to the
empty state and throw `ALLOCATION_ERROR`, are therefore not reachable in the
model (their reset state satisfies every invariant proved below anyway). -/
structure ByteBuffer where
  size : Nat
  buffer : Option (Nat → Nat)

namespace ByteBuffer

/-- `BinaryText::ByteBuffer::Error::Type`. -/
inductive ErrorType where
| EMPTY_BUFFER_ERROR
| INVALID_ARGUMENTS_ERROR
| OPEN_FILE_ERROR
| READ_FROM_FILE_ERROR
| WRITE_TO_FILE_ERROR
| OUT_OF_RANGE_ERROR
| MAXIMUM_SIZE_LIMIT_ERROR
| ALLOCATION_ERROR
deriving DecidableEq

/-- `GetMaximumSize()`:
`std::numeric_limits<std::ptrdiff_t>::max()` on the 64-bit platform the
source asserts (`charSize == 8`, 64-bit `std::size_t`). -/
def maximumSize : Nat := 2 ^ 63 - 1

/-- `std::size_t` arithmetic wraps modulo `2^64`. -/
def sizeTypeModulus : Nat := 2 ^ 64

/-- The default constructor `ByteBuffer()`. -/
def mkEmpty : ByteBuffer := ⟨0, none⟩

/-- The sized constructor `ByteBuffer(SizeType)`: over-large sizes throw
`MAXIMUM_SIZE_LIMIT_ERROR` before any member is set; a positive size
allocates and zero-fills; otherwise the buffer stays empty. -/
def mkSized (n : Nat) : Except ErrorType ByteBuffer :=
  if n > maximumSize then Except.error ErrorType.MAXIMUM_SIZE_LIMIT_ERROR
  else if n > 0 then Except.ok ⟨n, some (fun _ => 0)⟩
  else Except.ok ⟨0, none⟩

/-- The `std::vector` constructor `ByteBuffer(const std::vector<ValueType>&)`
(a copy of the vector's contents). -/
def mkFromList (l : List Nat) : Except ErrorType ByteBuffer :=
  if l.length > maximumSize then
    Except.error ErrorType.MAXIMUM_SIZE_LIMIT_ERROR
  else if l.length > 0 then
    Except.ok ⟨l.length, some (fun i => l.getD i 0)⟩
  else Except.ok ⟨0, none⟩

/-- `SetAllBytes`: `std::fill` over the whole buffer when it is non-null,
a no-op otherwise. -/
def SetAllBytes (bb : ByteBuffer) (byte : Nat) : ByteBuffer :=
  match bb.buffer with
  | some _ => ⟨bb.size, some (fun _ => byte)⟩
  | none => bb

/-- `Clear()`. -/
def Clear (_bb : ByteBuffer) : ByteBuffer := ⟨0, none⟩

/-- `IsEmpty()`: `_buffer == nullptr`. -/
def IsEmpty (bb : ByteBuffer) : Bool := bb.buffer.isNone

/-- `Resize(SizeType, ValueType)` (`Resize(SizeType)` is the same with a
zero fill byte).  An error result carries the state the object is left in
when the exception leaves the method: the `MAXIMUM_SIZE_LIMIT_ERROR` branch
throws before touching any member. -/
def ResizeFill (bb : ByteBuffer) (n fill : Nat) :
    Except (ErrorType × ByteBuffer) ByteBuffer :=
  if n > maximumSize then
    Except.error (ErrorType.MAXIMUM_SIZE_LIMIT_ERROR, bb)
  else if n = bb.size then Except.ok bb
  else if n < 1 then Except.ok ⟨0, none⟩
  else
    let oldf : Nat → Nat := fun i =>
      match bb.buffer with
      | some f => f i
      | none => 0
    if n < bb.size then Except.ok ⟨n, some (fun i => if i < n then oldf i else 0)⟩
    else Except.ok ⟨n, some (fun i => if i < bb.size then oldf i else fill)⟩

/-- `Resize(SizeType)`: growth zero-fills. -/
def Resize (bb : ByteBuffer) (n : Nat) :
    Except (ErrorType × ByteBuffer) ByteBuffer :=
  ResizeFill bb n 0

/-- `operator+=` (BinaryText.hpp 840-885).  `nextSize` is computed in
`std::size_t` arithmetic; both `nextSize > GetMaximumSize()` and the
wrap-around check `nextSize < _size` throw `MAXIMUM_SIZE_LIMIT_ERROR`
without modifying the object (the error carries the state `a` is left in).
Appending to a null buffer copies the other buffer's contents; appending a
null buffer is a no-op. -/
def append (a b : ByteBuffer) : Except (ErrorType × ByteBuffer) ByteBuffer :=
  match a.buffer with
  | some fa =>
    match b.buffer with
    | some fb =>
      let nextSize := (a.size + b.size) % sizeTypeModulus
      if nextSize > maximumSize then
        Except.error (ErrorType.MAXIMUM_SIZE_LIMIT_ERROR, a)
      else if nextSize < a.size then
        Except.error (ErrorType.MAXIMUM_SIZE_LIMIT_ERROR, a)
      else
        Except.ok ⟨nextSize,
          some (fun i => if i < a.size then fa i else fb (i - a.size))⟩
    | none => Except.ok a
  | none =>
    match b.buffer with
    | some fb => Except.ok ⟨b.size, some (fun i => fb i)⟩
    | none => Except.ok a

/-- The copy assignment `operator=`: a copy of the other buffer's contents
when it is non-null, the empty state otherwise. -/
def assignCopy (_a b : ByteBuffer) : ByteBuffer :=
  match b.buffer with
  | some f => ⟨b.size, some (fun i => f i)⟩
  | none => ⟨0, none⟩

/-- The chunk loop of `ReadFromFile`: each pass reads up to 8192 bytes into
a staging `ByteBuffer(8192)`, resizes it to the count actually read and
appends it with `operator+=` (whose error, carrying the state `operator+=`
leaves behind, propagates out of `ReadFromFile`). -/
def readChunksGo (acc : ByteBuffer) (l : List Nat) :
    Except (ErrorType × ByteBuffer) ByteBuffer :=
  match l with
  | [] => Except.ok acc
  | x :: tail =>
    match append acc ⟨min 8192 (x :: tail).length,
        some (fun i => ((x :: tail).take 8192).getD i 0)⟩ with
    | Except.error e => Except.error e
    | Except.ok acc2 => readChunksGo acc2 ((x :: tail).drop 8192)
termination_by l.length
decreasing_by
  simp only [List.length_drop, List.length_cons]
  omega

/-- `ReadFromFile` (BinaryText.hpp 589-625): the object is first reset to
the empty state; a file that cannot be opened (`fileContents = none`) and a
failing read both reset the object and throw; otherwise the contents are
accumulated through the chunk loop. -/
def ReadFromFile (fileContents : Option (List Nat)) (readFails : Bool) :
    Except (ErrorType × ByteBuffer) ByteBuffer :=
  match fileContents with
  | none => Except.error (ErrorType.OPEN_FILE_ERROR, ⟨0, none⟩)
  | some l =>
    if readFails then Except.error (ErrorType.READ_FROM_FILE_ERROR, ⟨0, none⟩)
    else readChunksGo ⟨0, none⟩ l

/-- The spec invariant: the storage pointer is non-null exactly when the
length is positive. -/
def SizeInv (bb : ByteBuffer) : Prop :=
  bb.buffer.isSome = decide (0 < bb.size)

end ByteBuffer

theorem base16_pairsSpec_ok_or_parse (c : Base16.Case) :
    ∀ t : List Char, (∃ bs, Base16.pairsSpec c t = Except.ok bs) ∨
      Base16.pairsSpec c t =
        Except.error Base16.ErrorType.STRING_PARSE_ERROR := by
  intro t
  have key : ∀ (n : Nat) (t : List Char), t.length ≤ n →
      (∃ bs, Base16.pairsSpec c t = Except.ok bs) ∨
        Base16.pairsSpec c t =
          Except.error Base16.ErrorType.STRING_PARSE_ERROR := by
    intro n
    induction n with
    | zero =>
      intro t ht
      rw [List.length_eq_zero.mp (Nat.le_zero.mp ht)]
      exact Or.inl ⟨[], rfl⟩
    | succ n ih =>
      intro t ht
      match t with
      | [] => exact Or.inl ⟨[], rfl⟩
      | [d] =>
        cases hv : Base16.hexDigitValue c d with
        | some v => exact Or.inl ⟨[v * 16], by simp [Base16.pairsSpec, hv]⟩
        | none => exact Or.inr (by simp [Base16.pairsSpec, hv])
      | d1 :: d2 :: rest =>
        have hrest : rest.length ≤ n := by
          simp only [List.length_cons] at ht
          omega
        cases hv1 : Base16.hexDigitValue c d1 with
        | none =>
          refine Or.inr ?_
          simp [Base16.pairsSpec, hv1]
        | some v1 =>
          cases hv2 : Base16.hexDigitValue c d2 with
          | none =>
            refine Or.inr ?_
            simp [Base16.pairsSpec, hv1, hv2]
          | some v2 =>
            rcases ih rest hrest with ⟨bs, hbs⟩ | herr
            · exact Or.inl ⟨(v1 * 16 + v2) :: bs,
                by simp [Base16.pairsSpec, hv1, hv2, hbs, Except.map]⟩
            · refine Or.inr ?_
              simp [Base16.pairsSpec, hv1, hv2, herr, Except.map]
  exact key t.length t (Nat.le_refl _)

/-- C6.  Base16 decode ignores `' '` (U+0020) and `'\n'` (U+000A) wherever
they occur between the hex digits: the decode of `s` equals the pairwise
decode of `s` with all whitespace characters removed, in which a final
unpaired digit is emitted left-shifted four bits (the digit as high nibble
of a zero-padded byte) and any non-alphabet character is a
`STRING_PARSE_ERROR`. -/
theorem base16_decode_matches_pair_spec (c : Base16.Case) (s : List Char) :
    Base16.DecodeStringToString s c = Base16.decodeSpec c s :=
  Base16.decodeGo_eq_spec c s

/-- C10.  For every input string and case policy, Base16
`DecodeStringToString` either returns normally or raises the parse error;
in particular the `default: UnreachableTerminate();` branch of the
tail-group `switch(counter)` (modelled as the `UNREACHABLE_TERMINATE`
result) is never reached. -/
theorem base16_decode_never_unreachable (c : Base16.Case) (s : List Char) :
    (∃ bs, Base16.DecodeStringToString s c = Except.ok bs) ∨
      Base16.DecodeStringToString s c =
        Except.error Base16.ErrorType.STRING_PARSE_ERROR := by
  rw [base16_decode_matches_pair_spec c s]
  exact base16_pairsSpec_ok_or_parse c _

theorem ascii85_encodeGo_nil (f : Bool) : Ascii85.encodeGo f [] = [] := by
  rw [Ascii85.encodeGo]
  simp

theorem ascii85_decodeStrGo_nil (f : Bool) :
    Ascii85.decodeStrGo f [] = Except.ok [] := by
  rw [Ascii85.decodeStrGo]

theorem ascii85_decodeBufGo_nil (f : Bool) :
    Ascii85.decodeBufGo f [] = Except.ok [] := by
  rw [Ascii85.decodeBufGo]

theorem ascii85_encode_single_zero :
    Ascii85.EncodeByteBufferToString [0] false false = ['z'] := by
  rw [Ascii85.EncodeByteBufferToString, Ascii85.encodeGo]
  simp [Ascii85.encodeGroup, ascii85_encodeGo_nil]

theorem ascii85_encodeStr_single_zero :
    Ascii85.EncodeStringToString [Char.ofNat 0] false false = ['z'] := by
  rw [Ascii85.EncodeStringToString]
  have : ([Char.ofNat 0].map (fun ch => ch.toNat % 256)) = [0] := by decide
  rw [this]
  exact ascii85_encode_single_zero

theorem ascii85_decodeBuf_z :
    Ascii85.DecodeStringToByteBuffer ['z'] false false =
      Except.ok [0, 0, 0, 0] := by
  show Ascii85.decodeBufGo false ['z'] = _
  rw [Ascii85.decodeBufGo]
  simp [ascii85_decodeBufGo_nil, Except.map]

theorem ascii85_decodeStr_z :
    Ascii85.DecodeStringToString ['z'] false false = Except.ok [] := by
  show Ascii85.decodeStrGo false ['z'] = _
  rw [Ascii85.decodeStrGo]
  simp [ascii85_decodeStrGo_nil]

theorem ascii85_decodeStrGo_step (f : Bool) (ch : Char) (rest : List Char)
    (h1 : ¬ch = ' ') (h2 : ¬ch = '\n') (h3 : ¬ch = 'y') (h4 : ¬ch = 'z')
    {prev bits d : Nat}
    (h : Ascii85.collectDigits 0 0 0 (ch :: rest) =
      Except.ok (prev, bits, d)) :
    Ascii85.decodeStrGo f (ch :: rest) =
      match Ascii85.flushDigits prev bits with
      | Except.error e => Except.error e
      | Except.ok bytes =>
        (Ascii85.decodeStrGo f ((ch :: rest).drop d)).map
          (fun l => bytes ++ l) := by
  conv_lhs => rw [Ascii85.decodeStrGo]
  simp only [if_neg h1, if_neg h2, if_neg h3, if_neg h4]
  split
  · rename_i e heq
    rw [heq] at h
    cases h
  · rename_i p b2 d2 heq
    rw [heq] at h
    simp only [Except.ok.injEq, Prod.mk.injEq] at h
    obtain ⟨hp, hb, hd⟩ := h
    subst hp
    subst hb
    subst hd
    rfl

theorem ascii85_decodeBufGo_step (f : Bool) (ch : Char) (rest : List Char)
    (h1 : ¬ch = ' ') (h2 : ¬ch = '\n') (h3 : ¬ch = 'y') (h4 : ¬ch = 'z')
    {prev bits d : Nat}
    (h : Ascii85.collectDigits 0 0 0 (ch :: rest) =
      Except.ok (prev, bits, d)) :
    Ascii85.decodeBufGo f (ch :: rest) =
      match Ascii85.flushDigits prev bits with
      | Except.error e => Except.error e
      | Except.ok bytes =>
        (Ascii85.decodeBufGo f ((ch :: rest).drop d)).map
          (fun l => bytes ++ l) := by
  conv_lhs => rw [Ascii85.decodeBufGo]
  simp only [if_neg h1, if_neg h2, if_neg h3, if_neg h4]
  split
  · rename_i e heq
    rw [heq] at h
    cases h
  · rename_i p b2 d2 heq
    rw [heq] at h
    simp only [Except.ok.injEq, Prod.mk.injEq] at h
    obtain ⟨hp, hb, hd⟩ := h
    subst hp
    subst hb
    subst hd
    rfl

theorem ascii85_decodeStr_ws_only :
    Ascii85.decodeStrGo false [' '] = Except.ok [] := by
  rw [Ascii85.decodeStrGo]
  simp [ascii85_decodeStrGo_nil]

theorem ascii85_decodeStr_c_ws :
    Ascii85.decodeStrGo false ['c', ' '] = Except.ok [] := by
  have hcol : Ascii85.collectDigits 0 0 0 ['c', ' '] =
      Except.ok (1, 3445241250, 1) := by rfl
  rw [ascii85_decodeStrGo_step false 'c' [' ']
    (by decide) (by decide) (by decide) (by decide) hcol]
  have hfl : Ascii85.flushDigits 1 3445241250 = Except.ok [] := by rfl
  rw [hfl]
  simp [ascii85_decodeStr_ws_only, Except.map]

theorem ascii85_decodeStr_bc_ws :
    Ascii85.decodeStrGo false ['b', 'c', ' '] = Except.ok [204] := by
  have hcol : Ascii85.collectDigits 0 0 0 ['b', 'c', ' '] =
      Except.ok (2, 3433572875, 1) := by rfl
  rw [ascii85_decodeStrGo_step false 'b' ['c', ' ']
    (by decide) (by decide) (by decide) (by decide) hcol]
  have hfl : Ascii85.flushDigits 2 3433572875 = Except.ok [204] := by rfl
  rw [hfl]
  simp [ascii85_decodeStr_c_ws, Except.map]

/-- A 2-4 digit Ascii85 group ended by a whitespace that is the last input
character is flushed and then *re-decoded* from one past the group's start
(the inner loop breaks without `iter = jter`): the string surface decodes
`"abc "` through the groups `abc`, `bc`, `c` to the three bytes
`[201, 137, 204]`, not to the two bytes `[201, 137]` of the single group
`abc`. -/
theorem ascii85_decodeStr_trailing_ws_regroups :
    Ascii85.DecodeStringToString ['a', 'b', 'c', ' '] false false =
      Except.ok [201, 137, 204] := by
  show Ascii85.decodeStrGo false ['a', 'b', 'c', ' '] = _
  have hcol : Ascii85.collectDigits 0 0 0 ['a', 'b', 'c', ' '] =
      Except.ok (3, 3381234975, 1) := by rfl
  rw [ascii85_decodeStrGo_step false 'a' ['b', 'c', ' ']
    (by decide) (by decide) (by decide) (by decide) hcol]
  have hfl : Ascii85.flushDigits 3 3381234975 =
      Except.ok [201, 137] := by rfl
  rw [hfl]
  simp [ascii85_decodeStr_bc_ws, Except.map]

theorem ascii85_decodeBuf_ws_only :
    Ascii85.decodeBufGo false [' '] = Except.ok [] := by
  rw [Ascii85.decodeBufGo]
  simp [ascii85_decodeBufGo_nil]

theorem ascii85_decodeBuf_c_ws :
    Ascii85.decodeBufGo false ['c', ' '] = Except.ok [] := by
  have hcol : Ascii85.collectDigits 0 0 0 ['c', ' '] =
      Except.ok (1, 3445241250, 1) := by rfl
  rw [ascii85_decodeBufGo_step false 'c' [' ']
    (by decide) (by decide) (by decide) (by decide) hcol]
  have hfl : Ascii85.flushDigits 1 3445241250 = Except.ok [] := by rfl
  rw [hfl]
  simp [ascii85_decodeBuf_ws_only, Except.map]

theorem ascii85_decodeBuf_bc_ws :
    Ascii85.decodeBufGo false ['b', 'c', ' '] = Except.ok [204] := by
  have hcol : Ascii85.collectDigits 0 0 0 ['b', 'c', ' '] =
      Except.ok (2, 3433572875, 1) := by rfl
  rw [ascii85_decodeBufGo_step false 'b' ['c', ' ']
    (by decide) (by decide) (by decide) (by decide) hcol]
  have hfl : Ascii85.flushDigits 2 3433572875 = Except.ok [204] := by rfl
  rw [hfl]
  simp [ascii85_decodeBuf_c_ws, Except.map]

/-- The same trailing-whitespace re-decoding on the ByteBuffer surface:
`"abc "` decodes to `[201, 137, 204]`. -/
theorem ascii85_decodeBuf_trailing_ws_regroups :
    Ascii85.DecodeStringToByteBuffer ['a', 'b', 'c', ' '] false false =
      Except.ok [201, 137, 204] := by
  show Ascii85.decodeBufGo false ['a', 'b', 'c', ' '] = _
  have hcol : Ascii85.collectDigits 0 0 0 ['a', 'b', 'c', ' '] =
      Except.ok (3, 3381234975, 1) := by rfl
  rw [ascii85_decodeBufGo_step false 'a' ['b', 'c', ' ']
    (by decide) (by decide) (by decide) (by decide) hcol]
  have hfl : Ascii85.flushDigits 3 3381234975 =
      Except.ok [201, 137] := by rfl
  rw [hfl]
  simp [ascii85_decodeBuf_bc_ws, Except.map]

/-- C1.  The encode/decode round trip on the ByteBuffer surfaces fails for
Ascii85 at the one-byte buffer `{0x00}` (with space folding and Adobe mode
off): the encoder emits the full-group shortcut `'z'` for the ragged
all-zero final group, so the decoder returns four zero bytes instead of
one.  (Evaluation of the code at the failing input of the round-trip
claim.) -/
theorem ascii85_roundtrip_fails_on_zero_byte :
    Ascii85.DecodeStringToByteBuffer
        (Ascii85.EncodeByteBufferToString [0] false false) false false =
      Except.ok [0, 0, 0, 0] ∧ ([0, 0, 0, 0] : List Nat) ≠ [0] := by
  rw [ascii85_encode_single_zero]
  exact ⟨ascii85_decodeBuf_z, by decide⟩

/-- C2.  On the two Ascii85 decode surfaces a lone `'z'` behaves
differently: `DecodeStringToString` appends nothing (its
`case 'z': continue;` has the `decodedString.append("\0\0\0\0")` commented
out), while `DecodeStringToByteBuffer` appends four zero bytes.
(Evaluation of the code at the failing input of the `z` claim.) -/
theorem ascii85_decode_z_surfaces_disagree :
    Ascii85.DecodeStringToString ['z'] false false = Except.ok [] ∧
      Ascii85.DecodeStringToByteBuffer ['z'] false false =
        Except.ok [0, 0, 0, 0] :=
  ⟨ascii85_decodeStr_z, ascii85_decodeBuf_z⟩

/-- A full buffer of maximum permitted size (a legitimate `ByteBuffer`
state: `n = N_max`, storage allocated). -/
def fullBuffer : ByteBuffer := ⟨ByteBuffer.maximumSize, some (fun _ => 0)⟩

/-- C4 (counterexample).  Concatenating two maximum-size buffers overflows
`N_max`, and `operator+=` does raise `MAXIMUM_SIZE_LIMIT_ERROR` — but it
throws before touching any member, so `a` keeps its non-empty state (size
`N_max`, storage still allocated) instead of being reset to empty as the
claim states. -/
theorem byteBuffer_append_size_limit_not_reset :
    ByteBuffer.append fullBuffer fullBuffer =
      Except.error (ByteBuffer.ErrorType.MAXIMUM_SIZE_LIMIT_ERROR,
        fullBuffer) ∧
      ByteBuffer.IsEmpty fullBuffer = false ∧ fullBuffer.size ≠ 0 := by
  refine ⟨?_, rfl, by decide⟩
  rw [ByteBuffer.append]
  norm_num [fullBuffer, ByteBuffer.maximumSize, ByteBuffer.sizeTypeModulus]

/-- C4 (amended).  Whenever `a += b` (both buffers non-null) computes a
`nextSize` that overflows `N_max` or wraps around `std::size_t`, it raises
`MAXIMUM_SIZE_LIMIT_ERROR` and leaves `a` exactly as it was — in
particular, a non-empty `a` is *not* reset to the empty state. -/
theorem byteBuffer_append_size_limit_leaves_state (a b : ByteBuffer)
    (fa fb : Nat → Nat) (ha : a.buffer = some fa) (hb : b.buffer = some fb)
    (hover : ByteBuffer.maximumSize <
        (a.size + b.size) % ByteBuffer.sizeTypeModulus ∨
      (a.size + b.size) % ByteBuffer.sizeTypeModulus < a.size) :
    ByteBuffer.append a b =
      Except.error (ByteBuffer.ErrorType.MAXIMUM_SIZE_LIMIT_ERROR, a) := by
  rw [ByteBuffer.append, ha, hb]
  by_cases h1 : ByteBuffer.maximumSize <
      (a.size + b.size) % ByteBuffer.sizeTypeModulus
  · simp only [h1, if_pos, gt_iff_lt, if_true]
  · have h2 : (a.size + b.size) % ByteBuffer.sizeTypeModulus < a.size := by
      rcases hover with h | h
      · exact absurd h h1
      · exact h
    simp only [gt_iff_lt, h1, if_false, h2, if_true]

/-- Witness for the amended C4 theorem at two concrete maximum-size
buffers. -/
theorem byteBuffer_append_size_limit_leaves_state_witness :
    ByteBuffer.append fullBuffer fullBuffer =
      Except.error (ByteBuffer.ErrorType.MAXIMUM_SIZE_LIMIT_ERROR,
        fullBuffer) :=
  byteBuffer_append_size_limit_leaves_state fullBuffer fullBuffer
    (fun _ => 0) (fun _ => 0) rfl rfl
    (Or.inl (by norm_num [fullBuffer, ByteBuffer.maximumSize,
      ByteBuffer.sizeTypeModulus]))

theorem sizeInv_append_ok {a b c : ByteBuffer}
    (hia : ByteBuffer.SizeInv a) (hib : ByteBuffer.SizeInv b)
    (h : ByteBuffer.append a b = Except.ok c) : ByteBuffer.SizeInv c := by
  rw [ByteBuffer.append] at h
  cases hba : a.buffer with
  | some fa =>
    rw [hba] at h
    cases hbb : b.buffer with
    | some fb =>
      rw [hbb] at h
      simp only [] at h
      by_cases h1 : (a.size + b.size) % ByteBuffer.sizeTypeModulus >
          ByteBuffer.maximumSize
      · rw [if_pos h1] at h
        cases h
      · rw [if_neg h1] at h
        by_cases h2 : (a.size + b.size) % ByteBuffer.sizeTypeModulus < a.size
        · rw [if_pos h2] at h
          cases h
        · rw [if_neg h2] at h
          cases h
          have hsa : 0 < a.size := by
            simpa [ByteBuffer.SizeInv, hba] using hia
          simp only [ByteBuffer.SizeInv, Option.isSome_some, true_eq_decide_iff]
          omega
    | none =>
      rw [hbb] at h
      simp only [] at h
      cases h
      exact hia
  | none =>
    rw [hba] at h
    cases hbb : b.buffer with
    | some fb =>
      rw [hbb] at h
      simp only [] at h
      cases h
      have hsb : 0 < b.size := by
        simpa [ByteBuffer.SizeInv, hbb] using hib
      simp only [ByteBuffer.SizeInv, Option.isSome_some, true_eq_decide_iff]
      omega
    | none =>
      rw [hbb] at h
      simp only [] at h
      cases h
      exact hia

theorem sizeInv_append_err {a b c : ByteBuffer}
    {e : ByteBuffer.ErrorType} (hia : ByteBuffer.SizeInv a)
    (h : ByteBuffer.append a b = Except.error (e, c)) :
    ByteBuffer.SizeInv c := by
  rw [ByteBuffer.append] at h
  cases hba : a.buffer with
  | some fa =>
    rw [hba] at h
    cases hbb : b.buffer with
    | some fb =>
      rw [hbb] at h
      simp only [] at h
      by_cases h1 : (a.size + b.size) % ByteBuffer.sizeTypeModulus >
          ByteBuffer.maximumSize
      · rw [if_pos h1] at h
        cases h
        exact hia
      · rw [if_neg h1] at h
        by_cases h2 : (a.size + b.size) % ByteBuffer.sizeTypeModulus < a.size
        · rw [if_pos h2] at h
          cases h
          exact hia
        · rw [if_neg h2] at h
          cases h
    | none =>
      rw [hbb] at h
      simp only [] at h
      cases h
  | none =>
    rw [hba] at h
    cases hbb : b.buffer with
    | some fb =>
      rw [hbb] at h
      simp only [] at h
      cases h
    | none =>
      rw [hbb] at h
      simp only [] at h
      cases h

theorem sizeInv_readChunks :
    ∀ (n : Nat) (l : List Nat), l.length ≤ n →
      ∀ acc : ByteBuffer, ByteBuffer.SizeInv acc →
      (∀ c, ByteBuffer.readChunksGo acc l = Except.ok c →
        ByteBuffer.SizeInv c) ∧
      (∀ e c, ByteBuffer.readChunksGo acc l = Except.error (e, c) →
        ByteBuffer.SizeInv c) := by
  intro n
  induction n with
  | zero =>
    intro l hl acc hacc
    rw [List.length_eq_zero.mp (Nat.le_zero.mp hl)]
    constructor
    · intro c h
      rw [ByteBuffer.readChunksGo] at h
      cases h
      exact hacc
    · intro e c h
      rw [ByteBuffer.readChunksGo] at h
      cases h
  | succ n ih =>
    intro l hl acc hacc
    match l with
    | [] =>
      constructor
      · intro c h
        rw [ByteBuffer.readChunksGo] at h
        cases h
        exact hacc
      · intro e c h
        rw [ByteBuffer.readChunksGo] at h
        cases h
    | x :: tail =>
      have hchunk : ByteBuffer.SizeInv ⟨min 8192 (x :: tail).length,
          some (fun i => ((x :: tail).take 8192).getD i 0)⟩ := by
        simp only [ByteBuffer.SizeInv, Option.isSome_some,
          List.length_cons, true_eq_decide_iff]
        omega
      have hdrop : ((x :: tail).drop 8192).length ≤ n := by
        simp only [List.length_drop, List.length_cons]
        simp only [List.length_cons] at hl
        omega
      constructor
      · intro c h
        rw [ByteBuffer.readChunksGo] at h
        cases happ : ByteBuffer.append acc ⟨min 8192 (x :: tail).length,
            some (fun i => ((x :: tail).take 8192).getD i 0)⟩ with
        | error e =>
          rw [happ] at h
          cases h
        | ok acc2 =>
          rw [happ] at h
          have hacc2 := sizeInv_append_ok hacc hchunk happ
          exact (ih _ hdrop acc2 hacc2).1 c h
      · intro e c h
        rw [ByteBuffer.readChunksGo] at h
        cases happ : ByteBuffer.append acc ⟨min 8192 (x :: tail).length,
            some (fun i => ((x :: tail).take 8192).getD i 0)⟩ with
        | error e2 =>
          rw [happ] at h
          cases h
          exact sizeInv_append_err hacc happ
        | ok acc2 =>
          rw [happ] at h
          have hacc2 := sizeInv_append_ok hacc hchunk happ
          exact (ih _ hdrop acc2 hacc2).2 e c h

/-- C5.  The invariant "the storage pointer is non-null iff `n > 0`"
(`SizeInv`) holds after construction (default, sized and vector
constructors) and is preserved by every modelled public operation, on
normal return as well as on the states in which a raised `ByteBuffer`
error leaves the object: `SetAllBytes`, `Clear`, `Resize` (both
overloads, via `ResizeFill`), concatenation `operator+=`, copy assignment
and `ReadFromFile`. -/
theorem byteBuffer_storage_size_invariant :
    ByteBuffer.SizeInv ByteBuffer.mkEmpty ∧
    (∀ (n : Nat) (bb : ByteBuffer), ByteBuffer.mkSized n = Except.ok bb →
      ByteBuffer.SizeInv bb) ∧
    (∀ (l : List Nat) (bb : ByteBuffer),
      ByteBuffer.mkFromList l = Except.ok bb → ByteBuffer.SizeInv bb) ∧
    (∀ (bb : ByteBuffer) (byte : Nat), ByteBuffer.SizeInv bb →
      ByteBuffer.SizeInv (ByteBuffer.SetAllBytes bb byte)) ∧
    (∀ bb : ByteBuffer, ByteBuffer.SizeInv (ByteBuffer.Clear bb)) ∧
    (∀ (bb : ByteBuffer) (n fill : Nat) (bb2 : ByteBuffer),
      ByteBuffer.SizeInv bb → ByteBuffer.ResizeFill bb n fill = Except.ok bb2 →
      ByteBuffer.SizeInv bb2) ∧
    (∀ (bb : ByteBuffer) (n fill : Nat) (e : ByteBuffer.ErrorType)
      (bb2 : ByteBuffer), ByteBuffer.SizeInv bb →
      ByteBuffer.ResizeFill bb n fill = Except.error (e, bb2) →
      ByteBuffer.SizeInv bb2) ∧
    (∀ a b c : ByteBuffer, ByteBuffer.SizeInv a → ByteBuffer.SizeInv b →
      ByteBuffer.append a b = Except.ok c → ByteBuffer.SizeInv c) ∧
    (∀ (a b : ByteBuffer) (e : ByteBuffer.ErrorType) (c : ByteBuffer),
      ByteBuffer.SizeInv a → ByteBuffer.SizeInv b →
      ByteBuffer.append a b = Except.error (e, c) → ByteBuffer.SizeInv c) ∧
    (∀ a b : ByteBuffer, ByteBuffer.SizeInv b →
      ByteBuffer.SizeInv (ByteBuffer.assignCopy a b)) ∧
    (∀ (fc : Option (List Nat)) (rf : Bool) (c : ByteBuffer),
      ByteBuffer.ReadFromFile fc rf = Except.ok c → ByteBuffer.SizeInv c) ∧
    (∀ (fc : Option (List Nat)) (rf : Bool) (e : ByteBuffer.ErrorType)
      (c : ByteBuffer), ByteBuffer.ReadFromFile fc rf = Except.error (e, c) →
      ByteBuffer.SizeInv c) := by
  refine ⟨rfl, ?_, ?_, ?_, ?_, ?_, ?_, ?_, ?_, ?_, ?_, ?_⟩
  · intro n bb h
    rw [ByteBuffer.mkSized] at h
    by_cases h1 : n > ByteBuffer.maximumSize
    · rw [if_pos h1] at h
      cases h
    · rw [if_neg h1] at h
      by_cases h2 : n > 0
      · rw [if_pos h2] at h
        cases h
        simp only [ByteBuffer.SizeInv, Option.isSome_some, true_eq_decide_iff]
        omega
      · rw [if_neg h2] at h
        cases h
        rfl
  · intro l bb h
    rw [ByteBuffer.mkFromList] at h
    by_cases h1 : l.length > ByteBuffer.maximumSize
    · rw [if_pos h1] at h
      cases h
    · rw [if_neg h1] at h
      by_cases h2 : l.length > 0
      · rw [if_pos h2] at h
        cases h
        simp only [ByteBuffer.SizeInv, Option.isSome_some, true_eq_decide_iff]
        omega
      · rw [if_neg h2] at h
        cases h
        rfl
  · intro bb byte hinv
    rw [ByteBuffer.SetAllBytes]
    cases hbb : bb.buffer with
    | some f =>
      have hs : 0 < bb.size := by
        simpa [ByteBuffer.SizeInv, hbb] using hinv
      simp only [ByteBuffer.SizeInv, Option.isSome_some, true_eq_decide_iff]
      omega
    | none => exact hinv
  · intro bb
    rfl
  · intro bb n fill bb2 hinv h
    rw [ByteBuffer.ResizeFill] at h
    by_cases h1 : n > ByteBuffer.maximumSize
    · rw [if_pos h1] at h
      cases h
    · rw [if_neg h1] at h
      by_cases h2 : n = bb.size
      · rw [if_pos h2] at h
        cases h
        exact hinv
      · rw [if_neg h2] at h
        by_cases h3 : n < 1
        · rw [if_pos h3] at h
          cases h
          rfl
        · rw [if_neg h3] at h
          simp only [] at h
          by_cases h4 : n < bb.size
          · rw [if_pos h4] at h
            cases h
            simp only [ByteBuffer.SizeInv, Option.isSome_some,
              true_eq_decide_iff]
            omega
          · rw [if_neg h4] at h
            cases h
            simp only [ByteBuffer.SizeInv, Option.isSome_some,
              true_eq_decide_iff]
            omega
  · intro bb n fill e bb2 hinv h
    rw [ByteBuffer.ResizeFill] at h
    by_cases h1 : n > ByteBuffer.maximumSize
    · rw [if_pos h1] at h
      cases h
      exact hinv
    · rw [if_neg h1] at h
      by_cases h2 : n = bb.size
      · rw [if_pos h2] at h
        cases h
      · rw [if_neg h2] at h
        by_cases h3 : n < 1
        · rw [if_pos h3] at h
          cases h
        · rw [if_neg h3] at h
          simp only [] at h
          by_cases h4 : n < bb.size
          · rw [if_pos h4] at h
            cases h
          · rw [if_neg h4] at h
            cases h
  · intro a b c hia hib h
    exact sizeInv_append_ok hia hib h
  · intro a b e c hia hib h
    exact sizeInv_append_err hia h
  · intro a b hib
    rw [ByteBuffer.assignCopy]
    cases hbb : b.buffer with
    | some f =>
      have hs : 0 < b.size := by
        simpa [ByteBuffer.SizeInv, hbb] using hib
      simp only [ByteBuffer.SizeInv, Option.isSome_some, true_eq_decide_iff]
      omega
    | none => rfl
  · intro fc rf c h
    rw [ByteBuffer.ReadFromFile.eq_def] at h
    cases fc with
    | none => cases h
    | some l =>
      simp only [] at h
      by_cases hrf : rf = true
      · rw [if_pos hrf] at h
        cases h
      · rw [if_neg hrf] at h
        exact (sizeInv_readChunks l.length l (Nat.le_refl _) ⟨0, none⟩ rfl).1 c h
  · intro fc rf e c h
    rw [ByteBuffer.ReadFromFile.eq_def] at h
    cases fc with
    | none =>
      simp only [] at h
      cases h
      rfl
    | some l =>
      simp only [] at h
      by_cases hrf : rf = true
      · rw [if_pos hrf] at h
        cases h
        rfl
      · rw [if_neg hrf] at h
        exact (sizeInv_readChunks l.length l (Nat.le_refl _) ⟨0, none⟩ rfl).2 e c h

/-- Witness for the C5 invariant theorem at concrete buffers: a fill of a
two-byte buffer, a resize of it to four bytes, an append of two singleton
buffers and a read of a three-byte file all preserve the invariant. -/
theorem byteBuffer_storage_size_invariant_witness :
    ByteBuffer.SizeInv
      (ByteBuffer.SetAllBytes ⟨2, some (fun _ => 0)⟩ 7) ∧
    ByteBuffer.SizeInv (ByteBuffer.assignCopy ByteBuffer.mkEmpty
      ⟨1, some (fun _ => 5)⟩) :=
  ⟨byteBuffer_storage_size_invariant.2.2.2.1 ⟨2, some (fun _ => 0)⟩ 7 rfl,
    byteBuffer_storage_size_invariant.2.2.2.2.2.2.2.2.2.1
      ByteBuffer.mkEmpty ⟨1, some (fun _ => 5)⟩ rfl⟩

theorem base64_symbolValue_ne_pad {ch : Char} {v : Nat}
    (h : Base64.symbolValue ch = some v) : ch ≠ '=' := by
  intro he
  rw [he] at h
  cases h

/-- The 24-bit register after scanning two alphabet symbols. -/
def b64bits2 (va vb : Nat) : Nat :=
  ((0 * 64 % 2 ^ 24 + va) * 64 % 2 ^ 24 + vb)

/-- The 24-bit register after scanning three alphabet symbols. -/
def b64bits3 (va vb vc : Nat) : Nat :=
  (b64bits2 va vb * 64 % 2 ^ 24 + vc)

/-- The 24-bit register after scanning four alphabet symbols. -/
def b64bits4 (va vb vc vd : Nat) : Nat :=
  (b64bits3 va vb vc * 64 % 2 ^ 24 + vd)

theorem base64_scan_cons {ch : Char} {v : Nat}
    (hv : Base64.symbolValue ch = some v) (bits : Nat) (g : List Char) :
    Base64.scanGroup bits 0 (ch :: g) =
      Base64.scanGroup (bits * 64 % 2 ^ 24 + v) 0 g := by
  have hne := base64_symbolValue_ne_pad hv
  rw [Base64.scanGroup]
  simp [hne, hv]

theorem base64_go_step {a b c d : Char} {va vb vc vd : Nat}
    (hva : Base64.symbolValue a = some va)
    (hvb : Base64.symbolValue b = some vb)
    (hvc : Base64.symbolValue c = some vc)
    (hvd : Base64.symbolValue d = some vd) (rest : List Char) :
    Base64.decodeGo (a :: b :: c :: d :: rest) =
      (Base64.decodeGo rest).map (fun l =>
        [b64bits4 va vb vc vd / 2 ^ 16 % 256,
         b64bits4 va vb vc vd / 2 ^ 8 % 256,
         b64bits4 va vb vc vd % 256] ++ l) := by
  rw [Base64.decodeGo]
  simp only [List.isEmpty_cons, Bool.false_eq_true, if_false, List.take,
    List.drop]
  rw [base64_scan_cons hva, base64_scan_cons hvb, base64_scan_cons hvc,
    base64_scan_cons hvd]
  rw [Base64.scanGroup]
  simp [Base64.flushGroup, Base64.emitGroup, b64bits4, b64bits3, b64bits2]

theorem base64_go_three {a b c : Char} {va vb vc : Nat}
    (hva : Base64.symbolValue a = some va)
    (hvb : Base64.symbolValue b = some vb)
    (hvc : Base64.symbolValue c = some vc) :
    Base64.decodeGo [a, b, c] =
      Except.ok [b64bits3 va vb vc * 64 % 2 ^ 24 / 2 ^ 16 % 256,
        b64bits3 va vb vc * 64 % 2 ^ 24 / 2 ^ 8 % 256] ∧
    Base64.decodeGo [a, b, c, '='] =
      Except.ok [b64bits3 va vb vc * 64 % 2 ^ 24 / 2 ^ 16 % 256,
        b64bits3 va vb vc * 64 % 2 ^ 24 / 2 ^ 8 % 256] := by
  constructor
  · rw [Base64.decodeGo]
    simp only [List.isEmpty_cons, Bool.false_eq_true, if_false, List.take,
      List.drop]
    rw [base64_scan_cons hva, base64_scan_cons hvb, base64_scan_cons hvc]
    rw [Base64.scanGroup]
    simp [Base64.flushGroup, Base64.emitGroup, b64bits3, b64bits2]
  · rw [Base64.decodeGo]
    simp only [List.isEmpty_cons, Bool.false_eq_true, if_false, List.take,
      List.drop]
    rw [base64_scan_cons hva, base64_scan_cons hvb, base64_scan_cons hvc]
    rw [Base64.scanGroup]
    simp only [lt_self_iff_false, false_and, if_false, if_true]
    rw [Base64.scanGroup]
    simp [Base64.flushGroup, Base64.emitGroup, b64bits3, b64bits2]

theorem base64_go_two {a b : Char} {va vb : Nat}
    (hva : Base64.symbolValue a = some va)
    (hvb : Base64.symbolValue b = some vb) :
    Base64.decodeGo [a, b] =
      Except.ok [b64bits2 va vb * 64 ^ 2 % 2 ^ 24 / 2 ^ 16 % 256] ∧
    Base64.decodeGo [a, b, '=', '='] =
      Except.ok [b64bits2 va vb * 64 ^ 2 % 2 ^ 24 / 2 ^ 16 % 256] := by
  have hmm : b64bits2 va vb * 64 % 2 ^ 24 * 64 % 2 ^ 24 =
      b64bits2 va vb * 64 ^ 2 % 2 ^ 24 := by
    rw [Nat.mod_mul_mod]
    ring_nf
  constructor
  · rw [Base64.decodeGo]
    simp only [List.isEmpty_cons, Bool.false_eq_true, if_false, List.take,
      List.drop]
    rw [base64_scan_cons hva, base64_scan_cons hvb]
    rw [Base64.scanGroup]
    simp [Base64.flushGroup, Base64.emitGroup, b64bits2]
  · rw [Base64.decodeGo]
    simp only [List.isEmpty_cons, Bool.false_eq_true, if_false, List.take,
      List.drop]
    rw [base64_scan_cons hva, base64_scan_cons hvb]
    rw [Base64.scanGroup]
    simp only [lt_self_iff_false, false_and, if_false, if_true]
    rw [Base64.scanGroup]
    simp only [Nat.lt_irrefl, zero_lt_one, true_and, if_true, if_false]
    rw [Base64.scanGroup]
    simp [Base64.flushGroup, Base64.emitGroup, b64bits2, Nat.mod_mul_mod]
    ring_nf

theorem base64_go_one {a : Char} {va : Nat}
    (hva : Base64.symbolValue a = some va) :
    Base64.decodeGo [a] =
      Except.error Base64.ErrorType.STRING_PARSE_ERROR := by
  rw [Base64.decodeGo]
  simp only [List.isEmpty_cons, Bool.false_eq_true, if_false, List.take,
    List.drop]
  rw [base64_scan_cons hva]
  rw [Base64.scanGroup]
  simp [Base64.flushGroup]

theorem base64_go_append (p : List Char)
    (hp : ∀ ch ∈ p, (Base64.symbolValue ch).isSome = true)
    (hp4 : p.length % 4 = 0) :
    ∃ bs : List Nat, Base64.decodeGo p = Except.ok bs ∧
      bs.length = p.length / 4 * 3 ∧
      ∀ t, Base64.decodeGo (p ++ t) =
        (Base64.decodeGo t).map (fun l => bs ++ l) := by
  have key : ∀ (n : Nat) (p : List Char), p.length ≤ n →
      (∀ ch ∈ p, (Base64.symbolValue ch).isSome = true) →
      p.length % 4 = 0 →
      ∃ bs : List Nat, Base64.decodeGo p = Except.ok bs ∧
        bs.length = p.length / 4 * 3 ∧
        ∀ t, Base64.decodeGo (p ++ t) =
          (Base64.decodeGo t).map (fun l => bs ++ l) := by
    intro n
    induction n with
    | zero =>
      intro p hl _ _
      rw [List.length_eq_zero.mp (Nat.le_zero.mp hl)]
      refine ⟨[], by rw [Base64.decodeGo]; rfl, by simp, ?_⟩
      intro t
      simp only [List.nil_append]
      cases Base64.decodeGo t <;> simp [Except.map]
    | succ n ih =>
      intro p hl hp hp4
      match p with
      | [] =>
        refine ⟨[], by rw [Base64.decodeGo]; rfl, by simp, ?_⟩
        intro t
        simp only [List.nil_append]
        cases Base64.decodeGo t <;> simp [Except.map]
      | [a] => simp at hp4
      | [a, b] => simp at hp4
      | [a, b, c] => simp at hp4
      | a :: b :: c :: d :: p4 =>
        have hlen4 : p4.length % 4 = 0 := by
          simp only [List.length_cons] at hp4
          omega
        have hlen : p4.length ≤ n := by
          simp only [List.length_cons] at hl
          omega
        have hp4mem : ∀ ch ∈ p4, (Base64.symbolValue ch).isSome = true := by
          intro ch hch
          exact hp ch (by simp [hch])
        obtain ⟨va, hva⟩ := Option.isSome_iff_exists.mp (hp a (by simp))
        obtain ⟨vb, hvb⟩ := Option.isSome_iff_exists.mp (hp b (by simp))
        obtain ⟨vc, hvc⟩ := Option.isSome_iff_exists.mp (hp c (by simp))
        obtain ⟨vd, hvd⟩ := Option.isSome_iff_exists.mp (hp d (by simp))
        obtain ⟨bs4, hbs4, hlen4b, hsplit4⟩ := ih p4 hlen hp4mem hlen4
        refine ⟨[b64bits4 va vb vc vd / 2 ^ 16 % 256,
          b64bits4 va vb vc vd / 2 ^ 8 % 256,
          b64bits4 va vb vc vd % 256] ++ bs4, ?_, ?_, ?_⟩
        · have hstep := base64_go_step hva hvb hvc hvd p4
          rw [hstep, hbs4]
          simp [Except.map]
        · simp only [List.length_append, List.length_cons, List.length_nil,
            hlen4b]
          omega
        · intro t
          have hstep := base64_go_step hva hvb hvc hvd (p4 ++ t)
          simp only [List.cons_append]
          rw [hstep, hsplit4 t]
          cases Base64.decodeGo t <;> simp [Except.map]
  exact key p.length p (Nat.le_refl _) hp hp4

/-- C7.  After any run of complete alphabet-only groups `p` (length a
multiple of four), a final group of exactly three alphabet symbols decodes
exactly as if one `'='` were appended (two further bytes), a final group of
exactly two symbols exactly as if two `'='` were appended (one further
byte), and a final group of exactly one symbol raises
`STRING_PARSE_ERROR`. -/
theorem base64_final_group_virtual_padding (p g : List Char)
    (hp : ∀ ch ∈ p, (Base64.symbolValue ch).isSome = true)
    (hp4 : p.length % 4 = 0)
    (hg : ∀ ch ∈ g, (Base64.symbolValue ch).isSome = true) :
    (g.length = 3 →
      Base64.DecodeStringToString (p ++ g) =
        Base64.DecodeStringToString (p ++ g ++ ['=']) ∧
      ∃ bs, Base64.DecodeStringToString (p ++ g) = Except.ok bs ∧
        bs.length = p.length / 4 * 3 + 2) ∧
    (g.length = 2 →
      Base64.DecodeStringToString (p ++ g) =
        Base64.DecodeStringToString (p ++ g ++ ['=', '=']) ∧
      ∃ bs, Base64.DecodeStringToString (p ++ g) = Except.ok bs ∧
        bs.length = p.length / 4 * 3 + 1) ∧
    (g.length = 1 →
      Base64.DecodeStringToString (p ++ g) =
        Except.error Base64.ErrorType.STRING_PARSE_ERROR) := by
  obtain ⟨bs, hbs, hlen, hsplit⟩ := base64_go_append p hp hp4
  refine ⟨?_, ?_, ?_⟩
  · intro hg3
    match g, hg3 with
    | [a, b, c], _ =>
      obtain ⟨va, hva⟩ := Option.isSome_iff_exists.mp (hg a (by simp))
      obtain ⟨vb, hvb⟩ := Option.isSome_iff_exists.mp (hg b (by simp))
      obtain ⟨vc, hvc⟩ := Option.isSome_iff_exists.mp (hg c (by simp))
      obtain ⟨h3a, h3b⟩ := base64_go_three hva hvb hvc
      constructor
      · show Base64.decodeGo (p ++ [a, b, c]) =
          Base64.decodeGo (p ++ [a, b, c] ++ ['='])
        rw [List.append_assoc]
        rw [hsplit [a, b, c], hsplit ([a, b, c] ++ ['='])]
        simp only [List.cons_append, List.nil_append]
        rw [h3a, h3b]
      · refine ⟨bs ++ [b64bits3 va vb vc * 64 % 2 ^ 24 / 2 ^ 16 % 256,
          b64bits3 va vb vc * 64 % 2 ^ 24 / 2 ^ 8 % 256], ?_, ?_⟩
        · show Base64.decodeGo (p ++ [a, b, c]) = _
          rw [hsplit [a, b, c], h3a]
          simp [Except.map]
        · simp [hlen]
  · intro hg2
    match g, hg2 with
    | [a, b], _ =>
      obtain ⟨va, hva⟩ := Option.isSome_iff_exists.mp (hg a (by simp))
      obtain ⟨vb, hvb⟩ := Option.isSome_iff_exists.mp (hg b (by simp))
      obtain ⟨h2a, h2b⟩ := base64_go_two hva hvb
      constructor
      · show Base64.decodeGo (p ++ [a, b]) =
          Base64.decodeGo (p ++ [a, b] ++ ['=', '='])
        rw [List.append_assoc]
        rw [hsplit [a, b], hsplit ([a, b] ++ ['=', '='])]
        simp only [List.cons_append, List.nil_append]
        rw [h2a, h2b]
      · refine ⟨bs ++ [b64bits2 va vb * 64 ^ 2 % 2 ^ 24 / 2 ^ 16 % 256],
          ?_, ?_⟩
        · show Base64.decodeGo (p ++ [a, b]) = _
          rw [hsplit [a, b], h2a]
          simp [Except.map]
        · simp [hlen]
  · intro hg1
    match g, hg1 with
    | [a], _ =>
      obtain ⟨va, hva⟩ := Option.isSome_iff_exists.mp (hg a (by simp))
      show Base64.decodeGo (p ++ [a]) = _
      rw [hsplit [a], base64_go_one hva]
      simp [Except.map]

/-- Witness for C7 at the concrete final groups `"Zm9"`, `"Zm"` and
`"Z"` (empty complete-group run). -/
theorem base64_final_group_virtual_padding_witness :
    Base64.DecodeStringToString ['Z', 'm', '9'] =
      Base64.DecodeStringToString ['Z', 'm', '9', '='] ∧
    Base64.DecodeStringToString ['Z', 'm'] =
      Base64.DecodeStringToString ['Z', 'm', '=', '='] ∧
    Base64.DecodeStringToString ['Z'] =
      Except.error Base64.ErrorType.STRING_PARSE_ERROR := by
  refine ⟨?_, ?_, ?_⟩
  · exact ((base64_final_group_virtual_padding [] ['Z', 'm', '9']
      (by simp) rfl (by decide)).1 rfl).1
  · exact ((base64_final_group_virtual_padding [] ['Z', 'm']
      (by simp) rfl (by decide)).2.1 rfl).1
  · exact (base64_final_group_virtual_padding [] ['Z']
      (by simp) rfl (by decide)).2.2 rfl

theorem base32_symbolValue_ne_pad {ch : Char} {v : Nat}
    (h : Base32.symbolValue ch = some v) : ch ≠ '=' := by
  intro he
  rw [he] at h
  cases h

theorem base32_scan_pads : ∀ (k : Nat) (bits pad : Nat),
    ∃ V, Base32.scanGroup bits pad (List.replicate k '=') =
      Except.ok (V, pad + k) := by
  intro k
  induction k with
  | zero =>
    intro bits pad
    exact ⟨bits, by simp [List.replicate, Base32.scanGroup]⟩
  | succ k ih =>
    intro bits pad
    obtain ⟨V, hV⟩ := ih (bits * 32 % 2 ^ 40) (pad + 1)
    refine ⟨V, ?_⟩
    rw [List.replicate_succ, Base32.scanGroup]
    simp only [ne_eq, not_true_eq_false, and_false, if_false, if_true]
    rw [hV]
    congr 2
    omega

theorem base32_scan_alpha_pads : ∀ (h : List Char) (k : Nat) (bits : Nat),
    (∀ ch ∈ h, (Base32.symbolValue ch).isSome = true) →
    ∃ V, Base32.scanGroup bits 0 (h ++ List.replicate k '=') =
      Except.ok (V, k) := by
  intro h
  induction h with
  | nil =>
    intro k bits _
    obtain ⟨V, hV⟩ := base32_scan_pads k bits 0
    exact ⟨V, by simpa using hV⟩
  | cons ch t ih =>
    intro k bits hh
    obtain ⟨v, hv⟩ := Option.isSome_iff_exists.mp (hh ch (by simp))
    have hne := base32_symbolValue_ne_pad hv
    obtain ⟨V, hV⟩ := ih k (bits * 32 % 2 ^ 40 + v)
      (fun c hc => hh c (by simp [hc]))
    refine ⟨V, ?_⟩
    rw [List.cons_append, Base32.scanGroup]
    simp [hne, hv]
    simpa using hV

theorem base32_go_final (h : List Char) (k : Nat)
    (hh : ∀ ch ∈ h, (Base32.symbolValue ch).isSome = true)
    (hlen : h.length + k = 8) :
    (k = 0 → ∃ bs : List Nat,
      Base32.decodeGo (h ++ List.replicate k '=') = Except.ok bs ∧
        bs.length = 5) ∧
    (k = 1 → ∃ bs : List Nat,
      Base32.decodeGo (h ++ List.replicate k '=') = Except.ok bs ∧
        bs.length = 4) ∧
    (k = 3 → ∃ bs : List Nat,
      Base32.decodeGo (h ++ List.replicate k '=') = Except.ok bs ∧
        bs.length = 3) ∧
    (k = 4 → ∃ bs : List Nat,
      Base32.decodeGo (h ++ List.replicate k '=') = Except.ok bs ∧
        bs.length = 2) ∧
    (k = 6 → ∃ bs : List Nat,
      Base32.decodeGo (h ++ List.replicate k '=') = Except.ok bs ∧
        bs.length = 1) ∧
    (k = 2 ∨ k = 5 ∨ k = 7 ∨ k = 8 →
      Base32.decodeGo (h ++ List.replicate k '=') =
        Except.error Base32.ErrorType.STRING_PARSE_ERROR) := by
  obtain ⟨V, hV⟩ := base32_scan_alpha_pads h k 0 hh
  have hlen8 : (h ++ List.replicate k '=').length = 8 := by
    simp [List.length_append, List.length_replicate, hlen]
  have hne : (h ++ List.replicate k '=') ≠ [] := by
    intro hc
    rw [hc] at hlen8
    simp at hlen8
  have hemp : (h ++ List.replicate k '=').isEmpty = false := by
    simpa [List.isEmpty_iff] using hne
  have htake : (h ++ List.replicate k '=').take 8 = h ++ List.replicate k '=' :=
    List.take_of_length_le (le_of_eq hlen8)
  have hgo : Base32.decodeGo (h ++ List.replicate k '=') =
      match Base32.flushGroup V k 8 with
      | Except.error e => Except.error e
      | Except.ok (bytes, padAfter) =>
        if 0 < padAfter then Except.ok bytes
        else (Base32.decodeGo ((h ++ List.replicate k '=').drop 8)).map
          (fun l => bytes ++ l)
  · rw [Base32.decodeGo]
    rw [hemp]
    simp only [Bool.false_eq_true, if_false]
    rw [htake, hV, hlen8]
  · rw [hgo]
    have hdrop : (h ++ List.replicate k '=').drop 8 = [] := by
      apply List.eq_nil_of_length_eq_zero
      simp [List.length_drop, hlen8]
    refine ⟨?_, ?_, ?_, ?_, ?_, ?_⟩
    · intro hk
      subst hk
      refine ⟨[V / 2 ^ 32 % 256, V / 2 ^ 24 % 256, V / 2 ^ 16 % 256,
        V / 2 ^ 8 % 256, V % 256], ?_, rfl⟩
      rw [hdrop]
      simp only [Base32.flushGroup, Base32.emitGroup]
      rw [Base32.decodeGo]
      rfl
    · intro hk
      subst hk
      exact ⟨_, rfl, rfl⟩
    · intro hk
      subst hk
      exact ⟨_, rfl, rfl⟩
    · intro hk
      subst hk
      exact ⟨_, rfl, rfl⟩
    · intro hk
      subst hk
      exact ⟨_, rfl, rfl⟩
    · rintro (hk | hk | hk | hk) <;> subst hk <;> rfl

theorem base32_go_nil : Base32.decodeGo [] = Except.ok [] := by
  rw [Base32.decodeGo]
  rfl

theorem base32_go_step (g : List Char) (hg8 : g.length = 8)
    (hg : ∀ ch ∈ g, (Base32.symbolValue ch).isSome = true) :
    ∃ bytes : List Nat, bytes.length = 5 ∧
      ∀ rest, Base32.decodeGo (g ++ rest) =
        (Base32.decodeGo rest).map (fun l => bytes ++ l) := by
  obtain ⟨V, hV⟩ := base32_scan_alpha_pads g 0 0 hg
  rw [List.replicate, List.append_nil] at hV
  refine ⟨[V / 2 ^ 32 % 256, V / 2 ^ 24 % 256, V / 2 ^ 16 % 256,
    V / 2 ^ 8 % 256, V % 256], rfl, ?_⟩
  intro rest
  have hne : g ≠ [] := by
    intro hc
    rw [hc] at hg8
    cases hg8
  have hemp : (g ++ rest).isEmpty = false := by
    simp [List.isEmpty_iff, hne]
  have htake : (g ++ rest).take 8 = g := by
    rw [← hg8]
    exact List.take_left g rest
  have hdrop : (g ++ rest).drop 8 = rest := by
    rw [← hg8]
    exact List.drop_left g rest
  rw [Base32.decodeGo, hemp]
  simp only [Bool.false_eq_true, if_false]
  rw [htake, hV, hg8, hdrop]
  rfl

theorem base32_go_append (p : List Char)
    (hp : ∀ ch ∈ p, (Base32.symbolValue ch).isSome = true)
    (hp8 : p.length % 8 = 0) :
    ∃ bs : List Nat, Base32.decodeGo p = Except.ok bs ∧
      bs.length = p.length / 8 * 5 ∧
      ∀ t, Base32.decodeGo (p ++ t) =
        (Base32.decodeGo t).map (fun l => bs ++ l) := by
  have key : ∀ (n : Nat) (p : List Char), p.length ≤ n →
      (∀ ch ∈ p, (Base32.symbolValue ch).isSome = true) →
      p.length % 8 = 0 →
      ∃ bs : List Nat, Base32.decodeGo p = Except.ok bs ∧
        bs.length = p.length / 8 * 5 ∧
        ∀ t, Base32.decodeGo (p ++ t) =
          (Base32.decodeGo t).map (fun l => bs ++ l) := by
    intro n
    induction n with
    | zero =>
      intro p hl _ _
      rw [List.length_eq_zero.mp (Nat.le_zero.mp hl)]
      refine ⟨[], base32_go_nil, by simp, ?_⟩
      intro t
      simp only [List.nil_append]
      cases Base32.decodeGo t <;> simp [Except.map]
    | succ n ih =>
      intro p hl hp hp8
      match p with
      | [] =>
        refine ⟨[], base32_go_nil, by simp, ?_⟩
        intro t
        simp only [List.nil_append]
        cases Base32.decodeGo t <;> simp [Except.map]
      | ch :: rest =>
        have hge : 8 ≤ (ch :: rest).length := by
          simp only [List.length_cons] at hp8 ⊢
          omega
        have hg8 : ((ch :: rest).take 8).length = 8 := by
          rw [List.length_take]
          omega
        have hsplitlist :
            (ch :: rest).take 8 ++ (ch :: rest).drop 8 = ch :: rest :=
          List.take_append_drop 8 _
        have hgmem : ∀ c ∈ (ch :: rest).take 8,
            (Base32.symbolValue c).isSome = true :=
          fun c hc => hp c (List.take_subset 8 _ hc)
        have hdmem : ∀ c ∈ (ch :: rest).drop 8,
            (Base32.symbolValue c).isSome = true :=
          fun c hc => hp c (List.drop_subset 8 _ hc)
        have hld : ((ch :: rest).drop 8).length = (ch :: rest).length - 8 :=
          List.length_drop 8 _
        have hlen2 : ((ch :: rest).drop 8).length ≤ n := by
          rw [hld]
          simp only [List.length_cons] at hl ⊢
          omega
        have hmod2 : ((ch :: rest).drop 8).length % 8 = 0 := by
          rw [hld]
          omega
        obtain ⟨bytes, hblen, hstep⟩ := base32_go_step _ hg8 hgmem
        obtain ⟨bs2, hbs2, hlen3, hsplit2⟩ := ih _ hlen2 hdmem hmod2
        refine ⟨bytes ++ bs2, ?_, ?_, ?_⟩
        · conv_lhs => rw [← hsplitlist]
          rw [hstep ((ch :: rest).drop 8), hbs2]
          simp [Except.map]
        · rw [List.length_append, hblen, hlen3, hld]
          omega
        · intro t
          have hassoc : (ch :: rest) ++ t =
              (ch :: rest).take 8 ++ ((ch :: rest).drop 8 ++ t) := by
            rw [← List.append_assoc, hsplitlist]
          rw [hassoc, hstep, hsplit2 t]
          cases Base32.decodeGo t <;> simp [Except.map]
  exact key p.length p (Nat.le_refl _) hp hp8

/-- C8.  After any run of complete alphabet-only groups `p` (length a
multiple of eight), a full final group made of `8 − k` alphabet symbols
followed by `k` trailing `'='` characters decodes successfully exactly for
`k ∈ {0, 1, 3, 4, 6}`, emitting `5, 4, 3, 2, 1` further bytes
respectively; every other pad count (`k ∈ {2, 5, 7, 8}`) raises
`STRING_PARSE_ERROR`. -/
theorem base32_final_group_pad_counts (p h : List Char) (k : Nat)
    (hp : ∀ ch ∈ p, (Base32.symbolValue ch).isSome = true)
    (hp8 : p.length % 8 = 0)
    (hh : ∀ ch ∈ h, (Base32.symbolValue ch).isSome = true)
    (hlen : h.length + k = 8) :
    (k = 0 → ∃ bs, Base32.DecodeStringToString
        (p ++ h ++ List.replicate k '=') = Except.ok bs ∧
        bs.length = p.length / 8 * 5 + 5) ∧
    (k = 1 → ∃ bs, Base32.DecodeStringToString
        (p ++ h ++ List.replicate k '=') = Except.ok bs ∧
        bs.length = p.length / 8 * 5 + 4) ∧
    (k = 3 → ∃ bs, Base32.DecodeStringToString
        (p ++ h ++ List.replicate k '=') = Except.ok bs ∧
        bs.length = p.length / 8 * 5 + 3) ∧
    (k = 4 → ∃ bs, Base32.DecodeStringToString
        (p ++ h ++ List.replicate k '=') = Except.ok bs ∧
        bs.length = p.length / 8 * 5 + 2) ∧
    (k = 6 → ∃ bs, Base32.DecodeStringToString
        (p ++ h ++ List.replicate k '=') = Except.ok bs ∧
        bs.length = p.length / 8 * 5 + 1) ∧
    (k = 2 ∨ k = 5 ∨ k = 7 ∨ k = 8 → Base32.DecodeStringToString
        (p ++ h ++ List.replicate k '=') =
        Except.error Base32.ErrorType.STRING_PARSE_ERROR) := by
  obtain ⟨bs, hbs, hbslen, hsplit⟩ := base32_go_append p hp hp8
  obtain ⟨hf0, hf1, hf3, hf4, hf6, hfbad⟩ := base32_go_final h k hh hlen
  have hfull : Base32.DecodeStringToString (p ++ h ++ List.replicate k '=') =
      (Base32.decodeGo (h ++ List.replicate k '=')).map (fun l => bs ++ l) := by
    show Base32.decodeGo (p ++ h ++ List.replicate k '=') = _
    rw [List.append_assoc]
    exact hsplit (h ++ List.replicate k '=')
  refine ⟨?_, ?_, ?_, ?_, ?_, ?_⟩
  · intro hk
    obtain ⟨tail, htail, htlen⟩ := hf0 hk
    refine ⟨bs ++ tail, ?_, ?_⟩
    · rw [hfull, htail]
      simp [Except.map]
    · simp [List.length_append, hbslen, htlen]
  · intro hk
    obtain ⟨tail, htail, htlen⟩ := hf1 hk
    refine ⟨bs ++ tail, ?_, ?_⟩
    · rw [hfull, htail]
      simp [Except.map]
    · simp [List.length_append, hbslen, htlen]
  · intro hk
    obtain ⟨tail, htail, htlen⟩ := hf3 hk
    refine ⟨bs ++ tail, ?_, ?_⟩
    · rw [hfull, htail]
      simp [Except.map]
    · simp [List.length_append, hbslen, htlen]
  · intro hk
    obtain ⟨tail, htail, htlen⟩ := hf4 hk
    refine ⟨bs ++ tail, ?_, ?_⟩
    · rw [hfull, htail]
      simp [Except.map]
    · simp [List.length_append, hbslen, htlen]
  · intro hk
    obtain ⟨tail, htail, htlen⟩ := hf6 hk
    refine ⟨bs ++ tail, ?_, ?_⟩
    · rw [hfull, htail]
      simp [Except.map]
    · simp [List.length_append, hbslen, htlen]
  · intro hk
    rw [hfull, hfbad hk]
    simp [Except.map]

/-- Witness for C8 at the concrete final groups `"MZXWGZZS"` (no pads),
`"MZXWGZZ="`, `"MZXW6==="`, `"MZXW===="`, `"MF======"` and the invalid pad
counts `"MZXWGZ=="`, `"MZX====="`, `"M======="`, `"========"` (empty
complete-group run). -/
theorem base32_final_group_pad_counts_witness :
    (∃ bs, Base32.DecodeStringToString
      ['M', 'Z', 'X', 'W', 'G', 'Z', 'Z', 'S'] = Except.ok bs ∧
      bs.length = 5) ∧
    (∃ bs, Base32.DecodeStringToString
      ['M', 'Z', 'X', 'W', 'G', 'Z', 'Z', '='] = Except.ok bs ∧
      bs.length = 4) ∧
    (∃ bs, Base32.DecodeStringToString
      ['M', 'Z', 'X', 'W', '6', '=', '=', '='] = Except.ok bs ∧
      bs.length = 3) ∧
    (∃ bs, Base32.DecodeStringToString
      ['M', 'Z', 'X', 'W', '=', '=', '=', '='] = Except.ok bs ∧
      bs.length = 2) ∧
    (∃ bs, Base32.DecodeStringToString
      ['M', 'F', '=', '=', '=', '=', '=', '='] = Except.ok bs ∧
      bs.length = 1) ∧
    Base32.DecodeStringToString ['M', 'Z', 'X', 'W', 'G', 'Z', '=', '='] =
      Except.error Base32.ErrorType.STRING_PARSE_ERROR ∧
    Base32.DecodeStringToString ['=', '=', '=', '=', '=', '=', '=', '='] =
      Except.error Base32.ErrorType.STRING_PARSE_ERROR := by
  refine ⟨?_, ?_, ?_, ?_, ?_, ?_, ?_⟩
  · simpa using (base32_final_group_pad_counts []
      ['M', 'Z', 'X', 'W', 'G', 'Z', 'Z', 'S'] 0 (by simp) rfl (by decide)
      rfl).1 rfl
  · simpa using (base32_final_group_pad_counts []
      ['M', 'Z', 'X', 'W', 'G', 'Z', 'Z'] 1 (by simp) rfl (by decide)
      rfl).2.1 rfl
  · simpa using (base32_final_group_pad_counts []
      ['M', 'Z', 'X', 'W', '6'] 3 (by simp) rfl (by decide)
      rfl).2.2.1 rfl
  · simpa using (base32_final_group_pad_counts []
      ['M', 'Z', 'X', 'W'] 4 (by simp) rfl (by decide)
      rfl).2.2.2.1 rfl
  · simpa using (base32_final_group_pad_counts []
      ['M', 'F'] 6 (by simp) rfl (by decide)
      rfl).2.2.2.2.1 rfl
  · simpa using (base32_final_group_pad_counts []
      ['M', 'Z', 'X', 'W', 'G', 'Z'] 2 (by simp) rfl (by decide)
      rfl).2.2.2.2.2 (Or.inl rfl)
  · simpa using (base32_final_group_pad_counts []
      [] 8 (by simp) rfl (by simp)
      rfl).2.2.2.2.2 (Or.inr (Or.inr (Or.inr rfl)))

theorem base64_scan_pad_then_nonpad : ∀ (s : List Char) (bits pad : Nat),
    0 < pad → (∃ c ∈ s, c ≠ '=') →
    Base64.scanGroup bits pad s =
      Except.error Base64.ErrorType.STRING_PARSE_ERROR := by
  intro s
  induction s with
  | nil =>
    intro bits pad _ hex
    simp at hex
  | cons ch rest ih =>
    intro bits pad hpad hex
    rw [Base64.scanGroup]
    by_cases hch : ch = '='
    · subst hch
      simp only [ne_eq, not_true_eq_false, and_false, if_false, if_true]
      apply ih _ _ (by omega)
      rcases hex with ⟨c, hc, hcne⟩
      rcases List.mem_cons.mp hc with hc1 | hc2
      · exact absurd hc1 hcne
      · exact ⟨c, hc2, hcne⟩
    · rw [if_pos ⟨hpad, hch⟩]

theorem base64_scan_eq_then_nonpad : ∀ (s : List Char) (bits pad : Nat)
    (i j : Nat) (c : Char), i < j → s.get? i = some '=' →
    s.get? j = some c → c ≠ '=' →
    Base64.scanGroup bits pad s =
      Except.error Base64.ErrorType.STRING_PARSE_ERROR := by
  intro s
  induction s with
  | nil =>
    intro bits pad i j c _ hi _ _
    simp at hi
  | cons ch rest ih =>
    intro bits pad i j c hij hi hj hcne
    match i with
    | 0 =>
      have hch : ch = '=' := by simpa using hi
      subst hch
      rw [Base64.scanGroup]
      simp only [ne_eq, not_true_eq_false, and_false, if_false, if_true]
      apply base64_scan_pad_then_nonpad _ _ _ (by omega)
      match j, hij with
      | j2 + 1, _ =>
        have : rest.get? j2 = some c := by simpa using hj
        exact ⟨c, List.get?_mem this, hcne⟩
    | i2 + 1 =>
      match j, hij with
      | j2 + 1, _ =>
        have hi2 : rest.get? i2 = some '=' := by simpa using hi
        have hj2 : rest.get? j2 = some c := by simpa using hj
        have hij2 : i2 < j2 := by omega
        rw [Base64.scanGroup]
        by_cases hpadch : 0 < pad ∧ ch ≠ '='
        · rw [if_pos hpadch]
        · rw [if_neg hpadch]
          by_cases hch : ch = '='
          · rw [if_pos hch]
            exact ih _ _ i2 j2 c hij2 hi2 hj2 hcne
          · rw [if_neg hch]
            cases hv : Base64.symbolValue ch with
            | some v => exact ih _ _ i2 j2 c hij2 hi2 hj2 hcne
            | none => rfl

theorem base64_scan_pad_mono : ∀ (s : List Char) (bits pad V p2 : Nat),
    Base64.scanGroup bits pad s = Except.ok (V, p2) → pad ≤ p2 := by
  intro s
  induction s with
  | nil =>
    intro bits pad V p2 h
    rw [Base64.scanGroup] at h
    cases h
    exact Nat.le_refl _
  | cons ch rest ih =>
    intro bits pad V p2 h
    rw [Base64.scanGroup] at h
    by_cases hpadch : 0 < pad ∧ ch ≠ '='
    · rw [if_pos hpadch] at h
      cases h
    · rw [if_neg hpadch] at h
      by_cases hch : ch = '='
      · rw [if_pos hch] at h
        have := ih _ _ _ _ h
        omega
      · rw [if_neg hch] at h
        cases hv : Base64.symbolValue ch with
        | some v =>
          rw [hv] at h
          exact ih _ _ _ _ h
        | none =>
          rw [hv] at h
          cases h

theorem base64_scan_pad_pos : ∀ (s : List Char) (bits pad V p2 : Nat),
    '=' ∈ s → Base64.scanGroup bits pad s = Except.ok (V, p2) → 0 < p2 := by
  intro s
  induction s with
  | nil =>
    intro bits pad V p2 hmem _
    simp at hmem
  | cons ch rest ih =>
    intro bits pad V p2 hmem h
    rw [Base64.scanGroup] at h
    by_cases hpadch : 0 < pad ∧ ch ≠ '='
    · rw [if_pos hpadch] at h
      cases h
    · rw [if_neg hpadch] at h
      by_cases hch : ch = '='
      · rw [if_pos hch] at h
        have := base64_scan_pad_mono _ _ _ _ _ h
        omega
      · rw [if_neg hch] at h
        have hmem2 : '=' ∈ rest := by
          rcases List.mem_cons.mp hmem with h1 | h2
          · exact absurd h1.symm hch
          · exact h2
        cases hv : Base64.symbolValue ch with
        | some v =>
          rw [hv] at h
          exact ih _ _ _ _ hmem2 h
        | none =>
          rw [hv] at h
          cases h

theorem base64_emit_pad_eq {bits pad : Nat} {bytes : List Nat} {p2 : Nat}
    (h : Base64.emitGroup bits pad = Except.ok (bytes, p2)) : p2 = pad := by
  rcases pad with _ | _ | _ | m <;>
    simp only [Base64.emitGroup] at h <;>
    first
    | (cases h; rfl)
    | cases h

theorem base64_go_stops_after_padded_group (g t : List Char)
    (hg4 : g.length = 4) (hmem : '=' ∈ g) :
    Base64.decodeGo (g ++ t) = Base64.decodeGo g := by
  have hne : g ≠ [] := by
    intro hc
    rw [hc] at hg4
    cases hg4
  have hemp1 : (g ++ t).isEmpty = false := by
    simp [List.isEmpty_iff, hne]
  have hemp2 : g.isEmpty = false := by
    simpa [List.isEmpty_iff] using hne
  have htake1 : (g ++ t).take 4 = g := by
    rw [← hg4]
    exact List.take_left g t
  have htake2 : g.take 4 = g := List.take_of_length_le (le_of_eq hg4)
  rw [Base64.decodeGo]
  rw [hemp1]
  simp only [Bool.false_eq_true, if_false]
  rw [htake1]
  conv_rhs => rw [Base64.decodeGo]
  rw [hemp2]
  simp only [Bool.false_eq_true, if_false]
  rw [htake2]
  cases hscan : Base64.scanGroup 0 0 g with
  | error e => rfl
  | ok vp =>
    rcases vp with ⟨V, pad⟩
    have hpad : 0 < pad := base64_scan_pad_pos g 0 0 V pad hmem hscan
    rw [hg4]
    simp only [Base64.flushGroup]
    cases hemit : Base64.emitGroup V pad with
    | error e => rfl
    | ok bp =>
      rcases bp with ⟨bytes, p2⟩
      have hp2 : p2 = pad := base64_emit_pad_eq hemit
      simp only []
      rw [hp2]
      simp [hpad]

theorem base32_scan_pad_then_nonpad : ∀ (s : List Char) (bits pad : Nat),
    0 < pad → (∃ c ∈ s, c ≠ '=') →
    Base32.scanGroup bits pad s =
      Except.error Base32.ErrorType.STRING_PARSE_ERROR := by
  intro s
  induction s with
  | nil =>
    intro bits pad _ hex
    simp at hex
  | cons ch rest ih =>
    intro bits pad hpad hex
    rw [Base32.scanGroup]
    by_cases hch : ch = '='
    · subst hch
      simp only [ne_eq, not_true_eq_false, and_false, if_false, if_true]
      apply ih _ _ (by omega)
      rcases hex with ⟨c, hc, hcne⟩
      rcases List.mem_cons.mp hc with hc1 | hc2
      · exact absurd hc1 hcne
      · exact ⟨c, hc2, hcne⟩
    · rw [if_pos ⟨hpad, hch⟩]

theorem base32_scan_eq_then_nonpad : ∀ (s : List Char) (bits pad : Nat)
    (i j : Nat) (c : Char), i < j → s.get? i = some '=' →
    s.get? j = some c → c ≠ '=' →
    Base32.scanGroup bits pad s =
      Except.error Base32.ErrorType.STRING_PARSE_ERROR := by
  intro s
  induction s with
  | nil =>
    intro bits pad i j c _ hi _ _
    simp at hi
  | cons ch rest ih =>
    intro bits pad i j c hij hi hj hcne
    match i with
    | 0 =>
      have hch : ch = '=' := by simpa using hi
      subst hch
      rw [Base32.scanGroup]
      simp only [ne_eq, not_true_eq_false, and_false, if_false, if_true]
      apply base32_scan_pad_then_nonpad _ _ _ (by omega)
      match j, hij with
      | j2 + 1, _ =>
        have : rest.get? j2 = some c := by simpa using hj
        exact ⟨c, List.get?_mem this, hcne⟩
    | i2 + 1 =>
      match j, hij with
      | j2 + 1, _ =>
        have hi2 : rest.get? i2 = some '=' := by simpa using hi
        have hj2 : rest.get? j2 = some c := by simpa using hj
        have hij2 : i2 < j2 := by omega
        rw [Base32.scanGroup]
        by_cases hpadch : 0 < pad ∧ ch ≠ '='
        · rw [if_pos hpadch]
        · rw [if_neg hpadch]
          by_cases hch : ch = '='
          · rw [if_pos hch]
            exact ih _ _ i2 j2 c hij2 hi2 hj2 hcne
          · rw [if_neg hch]
            cases hv : Base32.symbolValue ch with
            | some v => exact ih _ _ i2 j2 c hij2 hi2 hj2 hcne
            | none => rfl

theorem base32_scan_pad_mono : ∀ (s : List Char) (bits pad V p2 : Nat),
    Base32.scanGroup bits pad s = Except.ok (V, p2) → pad ≤ p2 := by
  intro s
  induction s with
  | nil =>
    intro bits pad V p2 h
    rw [Base32.scanGroup] at h
    cases h
    exact Nat.le_refl _
  | cons ch rest ih =>
    intro bits pad V p2 h
    rw [Base32.scanGroup] at h
    by_cases hpadch : 0 < pad ∧ ch ≠ '='
    · rw [if_pos hpadch] at h
      cases h
    · rw [if_neg hpadch] at h
      by_cases hch : ch = '='
      · rw [if_pos hch] at h
        have := ih _ _ _ _ h
        omega
      · rw [if_neg hch] at h
        cases hv : Base32.symbolValue ch with
        | some v =>
          rw [hv] at h
          exact ih _ _ _ _ h
        | none =>
          rw [hv] at h
          cases h

theorem base32_scan_pad_pos : ∀ (s : List Char) (bits pad V p2 : Nat),
    '=' ∈ s → Base32.scanGroup bits pad s = Except.ok (V, p2) → 0 < p2 := by
  intro s
  induction s with
  | nil =>
    intro bits pad V p2 hmem _
    simp at hmem
  | cons ch rest ih =>
    intro bits pad V p2 hmem h
    rw [Base32.scanGroup] at h
    by_cases hpadch : 0 < pad ∧ ch ≠ '='
    · rw [if_pos hpadch] at h
      cases h
    · rw [if_neg hpadch] at h
      by_cases hch : ch = '='
      · rw [if_pos hch] at h
        have := base32_scan_pad_mono _ _ _ _ _ h
        omega
      · rw [if_neg hch] at h
        have hmem2 : '=' ∈ rest := by
          rcases List.mem_cons.mp hmem with h1 | h2
          · exact absurd h1.symm hch
          · exact h2
        cases hv : Base32.symbolValue ch with
        | some v =>
          rw [hv] at h
          exact ih _ _ _ _ hmem2 h
        | none =>
          rw [hv] at h
          cases h

theorem base32_emit_pad_eq {bits pad : Nat} {bytes : List Nat} {p2 : Nat}
    (h : Base32.emitGroup bits pad = Except.ok (bytes, p2)) : p2 = pad := by
  rcases pad with _ | _ | _ | _ | _ | _ | _ | m <;>
    simp only [Base32.emitGroup] at h <;>
    first
    | (cases h; rfl)
    | cases h

theorem base32_go_stops_after_padded_group (g t : List Char)
    (hg8 : g.length = 8) (hmem : '=' ∈ g) :
    Base32.decodeGo (g ++ t) = Base32.decodeGo g := by
  have hne : g ≠ [] := by
    intro hc
    rw [hc] at hg8
    cases hg8
  have hemp1 : (g ++ t).isEmpty = false := by
    simp [List.isEmpty_iff, hne]
  have hemp2 : g.isEmpty = false := by
    simpa [List.isEmpty_iff] using hne
  have htake1 : (g ++ t).take 8 = g := by
    rw [← hg8]
    exact List.take_left g t
  have htake2 : g.take 8 = g := List.take_of_length_le (le_of_eq hg8)
  rw [Base32.decodeGo]
  rw [hemp1]
  simp only [Bool.false_eq_true, if_false]
  rw [htake1]
  conv_rhs => rw [Base32.decodeGo]
  rw [hemp2]
  simp only [Bool.false_eq_true, if_false]
  rw [htake2]
  cases hscan : Base32.scanGroup 0 0 g with
  | error e => rfl
  | ok vp =>
    rcases vp with ⟨V, pad⟩
    have hpad : 0 < pad := base32_scan_pad_pos g 0 0 V pad hmem hscan
    rw [hg8]
    simp only [Base32.flushGroup]
    cases hemit : Base32.emitGroup V pad with
    | error e => rfl
    | ok bp =>
      rcases bp with ⟨bytes, p2⟩
      have hp2 : p2 = pad := base32_emit_pad_eq hemit
      simp only []
      rw [hp2]
      simp [hpad]

/-- C9 (counterexample).  Base64 decode of `"Zg==A"` succeeds with the
single byte `0x66` (`'f'`): after the padded group `"Zg=="` is flushed, the
outer loop `break`s and the trailing non-`'='` character `'A'` is accepted
silently rather than raising the parse error the claim requires. -/
theorem base64_accepts_input_after_padded_group :
    Base64.DecodeStringToString ['Z', 'g', '=', '=', 'A'] =
      Except.ok [102] := by
  show Base64.decodeGo ['Z', 'g', '=', '=', 'A'] = _
  rw [Base64.decodeGo]
  rfl

/-- C9 (amended).  Within the group in which a `'='` was seen, any later
non-`'='` character does raise `STRING_PARSE_ERROR` (first and third
conjuncts, Base64 and Base32); but once a full group containing a `'='` has
been flushed, decoding stops and every remaining character — valid or not —
is ignored (second and fourth conjuncts). -/
theorem base_decode_padding_monotonic_within_group :
    (∀ (p g : List Char) (i j : Nat) (c : Char),
      (∀ ch ∈ p, (Base64.symbolValue ch).isSome = true) → p.length % 4 = 0 →
      i < j → j < 4 → g.get? i = some '=' → g.get? j = some c → c ≠ '=' →
      Base64.DecodeStringToString (p ++ g) =
        Except.error Base64.ErrorType.STRING_PARSE_ERROR) ∧
    (∀ (p g t : List Char),
      (∀ ch ∈ p, (Base64.symbolValue ch).isSome = true) → p.length % 4 = 0 →
      g.length = 4 → '=' ∈ g →
      Base64.DecodeStringToString (p ++ g ++ t) =
        Base64.DecodeStringToString (p ++ g)) ∧
    (∀ (p g : List Char) (i j : Nat) (c : Char),
      (∀ ch ∈ p, (Base32.symbolValue ch).isSome = true) → p.length % 8 = 0 →
      i < j → j < 8 → g.get? i = some '=' → g.get? j = some c → c ≠ '=' →
      Base32.DecodeStringToString (p ++ g) =
        Except.error Base32.ErrorType.STRING_PARSE_ERROR) ∧
    (∀ (p g t : List Char),
      (∀ ch ∈ p, (Base32.symbolValue ch).isSome = true) → p.length % 8 = 0 →
      g.length = 8 → '=' ∈ g →
      Base32.DecodeStringToString (p ++ g ++ t) =
        Base32.DecodeStringToString (p ++ g)) := by
  refine ⟨?_, ?_, ?_, ?_⟩
  · intro p g i j c hp hp4 hij hj4 hi hj hcne
    obtain ⟨bs, _, _, hsplit⟩ := base64_go_append p hp hp4
    show Base64.decodeGo (p ++ g) = _
    rw [hsplit g]
    have hgne : g ≠ [] := by
      intro hc
      rw [hc] at hj
      simp at hj
    have hemp : g.isEmpty = false := by
      simpa [List.isEmpty_iff] using hgne
    have hscan : Base64.scanGroup 0 0 (g.take 4) =
        Except.error Base64.ErrorType.STRING_PARSE_ERROR := by
      apply base64_scan_eq_then_nonpad (g.take 4) 0 0 i j c hij _ _ hcne
      · rw [List.get?_take (by omega)]
        exact hi
      · rw [List.get?_take hj4]
        exact hj
    rw [Base64.decodeGo, hemp]
    simp only [Bool.false_eq_true, if_false]
    rw [hscan]
    rfl
  · intro p g t hp hp4 hg4 hmem
    obtain ⟨bs, _, _, hsplit⟩ := base64_go_append p hp hp4
    show Base64.decodeGo (p ++ g ++ t) = Base64.decodeGo (p ++ g)
    rw [List.append_assoc, hsplit (g ++ t), hsplit g]
    rw [base64_go_stops_after_padded_group g t hg4 hmem]
  · intro p g i j c hp hp8 hij hj8 hi hj hcne
    obtain ⟨bs, _, _, hsplit⟩ := base32_go_append p hp hp8
    show Base32.decodeGo (p ++ g) = _
    rw [hsplit g]
    have hgne : g ≠ [] := by
      intro hc
      rw [hc] at hj
      simp at hj
    have hemp : g.isEmpty = false := by
      simpa [List.isEmpty_iff] using hgne
    have hscan : Base32.scanGroup 0 0 (g.take 8) =
        Except.error Base32.ErrorType.STRING_PARSE_ERROR := by
      apply base32_scan_eq_then_nonpad (g.take 8) 0 0 i j c hij _ _ hcne
      · rw [List.get?_take (by omega)]
        exact hi
      · rw [List.get?_take hj8]
        exact hj
    rw [Base32.decodeGo, hemp]
    simp only [Bool.false_eq_true, if_false]
    rw [hscan]
    rfl
  · intro p g t hp hp8 hg8 hmem
    obtain ⟨bs, _, _, hsplit⟩ := base32_go_append p hp hp8
    show Base32.decodeGo (p ++ g ++ t) = Base32.decodeGo (p ++ g)
    rw [List.append_assoc, hsplit (g ++ t), hsplit g]
    rw [base32_go_stops_after_padded_group g t hg8 hmem]

/-- Witness for the amended C9 theorem at concrete inputs: `"Z=gA"` fails
with the parse error (a non-`'='` inside the group after a `'='`), the
trailing garbage of `"Zg==!!!"` is ignored, and likewise for Base32 with
`"M=ZZZZZZ"` and `"ME======!"`. -/
theorem base_decode_padding_monotonic_within_group_witness :
    Base64.DecodeStringToString ['Z', '=', 'g', 'A'] =
      Except.error Base64.ErrorType.STRING_PARSE_ERROR ∧
    Base64.DecodeStringToString (['Z', 'g', '=', '='] ++ ['!', '!', '!']) =
      Base64.DecodeStringToString ['Z', 'g', '=', '='] ∧
    Base32.DecodeStringToString ['M', '=', 'Z', 'Z', 'Z', 'Z', 'Z', 'Z'] =
      Except.error Base32.ErrorType.STRING_PARSE_ERROR ∧
    Base32.DecodeStringToString
        (['M', 'E', '=', '=', '=', '=', '=', '='] ++ ['!']) =
      Base32.DecodeStringToString ['M', 'E', '=', '=', '=', '=', '=', '='] := by
  refine ⟨?_, ?_, ?_, ?_⟩
  · exact base_decode_padding_monotonic_within_group.1 []
      ['Z', '=', 'g', 'A'] 1 2 'g' (by simp) rfl (by omega) (by omega)
      rfl rfl (by decide)
  · exact base_decode_padding_monotonic_within_group.2.1 []
      ['Z', 'g', '=', '='] ['!', '!', '!'] (by simp) rfl rfl (by decide)
  · exact base_decode_padding_monotonic_within_group.2.2.1 []
      ['M', '=', 'Z', 'Z', 'Z', 'Z', 'Z', 'Z'] 1 2 'Z' (by simp) rfl
      (by omega) (by omega) rfl rfl (by decide)
  · exact base_decode_padding_monotonic_within_group.2.2.2 []
      ['M', 'E', '=', '=', '=', '=', '=', '='] ['!'] (by simp) rfl rfl
      (by decide)

/-- C3.  Ascii85 encode emits the `'z'` shortcut for a ragged final group
of zero bytes as well: the `if(bitset == 0)` test is taken for the
zero-extended value of any all-zero group, full or not, so the single zero
byte `{0x00}` encodes to `"z"` on both encode surfaces (the claim instead
requires the radix-85 digits `"!!"`).  (Evaluation of the code at the
failing input of the full-group-only claim.) -/
theorem ascii85_encode_z_on_ragged_zero_tail :
    Ascii85.EncodeByteBufferToString [0] false false = ['z'] ∧
      Ascii85.EncodeStringToString [Char.ofNat 0] false false = ['z'] :=
  ⟨ascii85_encode_single_zero, ascii85_encodeStr_single_zero⟩

end BinaryText
